import Mathlib

/-!
Verification of the drone image server's storage core (src/server.py).

Strings are modelled as `List Char` (`Str`).  Python string primitives used by
the source (`str.replace`, `in` substring test, `os.path.splitext`,
`os.path.join`, `strftime` formatting) are embedded faithfully below.
The filesystem is modelled as association lists from full path strings to
contents; directory creation (`os.makedirs`) is tracked in an explicit
directory set.
-/

abbrev Str := List Char

/-- Convert a Lean string literal to the character-list representation. -/
def str (s : String) : Str := s.data

/-- Substring test, Python `pat in s` semantics (empty pattern always occurs). -/
def occurs (p s : Str) : Bool :=
  p.isPrefixOf s ||
    match s with
    | [] => false
    | _ :: t => occurs p t

theorem occurs_nil (p : Str) : occurs p [] = p.isPrefixOf [] := by
  rw [occurs]; simp

theorem occurs_cons (p : Str) (c : Char) (t : Str) :
    occurs p (c :: t) = (p.isPrefixOf (c :: t) || occurs p t) := by
  rw [occurs]

theorem occurs_of_isPrefixOf {p s : Str} (h : p.isPrefixOf s = true) :
    occurs p s = true := by
  cases s with
  | nil => rw [occurs_nil]; exact h
  | cons c t => rw [occurs_cons, h, Bool.true_or]

/-- `occurs` agrees with list infix. -/
theorem occurs_iff_contains {p s : Str} : occurs p s = true ↔ p <:+: s := by
  induction s with
  | nil =>
    rw [occurs_nil]
    simp [List.isPrefixOf_iff_prefix]
  | cons c t ih =>
    rw [occurs_cons]
    simp [List.infix_cons_iff, List.isPrefixOf_iff_prefix, ih]

theorem occurs_length_le {p s : Str} (h : occurs p s = true) :
    p.length ≤ s.length :=
  (occurs_iff_contains.mp h).length_le

theorem mem_of_occurs {p s : Str} {c : Char} (h : occurs p s = true)
    (hc : c ∈ p) : c ∈ s :=
  (occurs_iff_contains.mp h).subset hc

/-- A prefix of `a ++ sep :: b` not containing `sep` is a prefix of `a`. -/
theorem pfx_through_sep {sep : Char} :
    ∀ (p a b : Str), sep ∉ p → p.isPrefixOf (a ++ sep :: b) = true →
      p.isPrefixOf a = true
  | [], _, _, _, _ => by simp [List.isPrefixOf]
  | q :: p', [], b, hsep, hpfx => by
    exfalso
    simp only [List.nil_append, List.isPrefixOf, Bool.and_eq_true, beq_iff_eq]
      at hpfx
    exact hsep (hpfx.1 ▸ List.mem_cons_self q p')
  | q :: p', c :: a', b, hsep, hpfx => by
    simp only [List.cons_append, List.isPrefixOf, Bool.and_eq_true,
      beq_iff_eq] at hpfx ⊢
    exact ⟨hpfx.1,
      pfx_through_sep p' a' b (fun h => hsep (List.mem_cons_of_mem _ h))
        hpfx.2⟩

/-- Occurrences split across a separator character not contained in the
pattern. -/
theorem occurs_append_sep {sep : Char} (p a b : Str) (hsep : sep ∉ p) :
    occurs p (a ++ sep :: b) = (occurs p a || occurs p b) := by
  induction a with
  | nil =>
    simp only [List.nil_append]
    rw [occurs_cons]
    congr 1
    cases p with
    | nil => simp [List.isPrefixOf, occurs_nil]
    | cons q p' =>
      rw [occurs_nil]
      have hq : q ≠ sep := fun h => hsep (h ▸ List.mem_cons_self q p')
      simp [List.isPrefixOf, hq]
  | cons c a' ih =>
    simp only [List.cons_append]
    have hEq : p.isPrefixOf (c :: (a' ++ sep :: b)) = p.isPrefixOf (c :: a') := by
      cases hcase : (p.isPrefixOf (c :: a') : Bool) with
      | true =>
        have h1 : p <+: c :: a' := List.isPrefixOf_iff_prefix.mp hcase
        have h2 : p <+: (c :: a') ++ sep :: b :=
          h1.trans (List.prefix_append _ _)
        simpa using List.isPrefixOf_iff_prefix.mpr h2
      | false =>
        cases hbig : (p.isPrefixOf (c :: (a' ++ sep :: b)) : Bool) with
        | true =>
          exact absurd
            (pfx_through_sep p (c :: a') b hsep (by simpa using hbig))
            (by simp [hcase])
        | false => rfl
    rw [occurs_cons p c (a' ++ sep :: b), ih, hEq, occurs_cons p c a',
      Bool.or_assoc]

theorem occurs_append_head {h : Char} {p' a : Str} (b : Str) (ha : h ∉ a) :
    occurs (h :: p') (a ++ b) = occurs (h :: p') b := by
  induction a with
  | nil => rfl
  | cons c a' ih =>
    have hc : h ≠ c := fun hd => ha (hd ▸ List.mem_cons_self c a')
    rw [List.cons_append, occurs_cons]
    have : (h :: p').isPrefixOf (c :: (a' ++ b)) = false := by
      simp [List.isPrefixOf, hc]
    rw [this, Bool.false_or]
    exact ih (fun hm => ha (List.mem_cons_of_mem _ hm))

/-- `pyReplace` worker for a nonempty pattern `o :: os`: structural recursion
on a fuel bound (any fuel at least `s.length` gives the replace semantics). -/
def pyRepGo (o : Char) (os new : Str) : Nat → Str → Str
  | 0, _ => []
  | fuel + 1, s =>
    if (o :: os).isPrefixOf s then
      new ++ pyRepGo o os new fuel (s.drop (os.length + 1))
    else
      match s with
      | [] => []
      | c :: cs => c :: pyRepGo o os new fuel cs

/-- `pyReplace` worker for the empty pattern: Python inserts `new` between
every character and at both ends. -/
def pyRepEmpty (s new : Str) : Str :=
  match s with
  | [] => new
  | c :: cs => new ++ c :: pyRepEmpty cs new

/-- Python `s.replace(old, new)`: replace every non-overlapping occurrence of
`old` left to right; the empty pattern matches between every character. -/
def pyReplace (s old new : Str) : Str :=
  match old with
  | [] => pyRepEmpty s new
  | o :: os => pyRepGo o os new s.length s

example : pyReplace (str "abc") [] (str "X") = str "XaXbXcX" := by decide
example : pyReplace (str "images/a/images/b") (str "images") (str "metadata")
    = str "metadata/a/metadata/b" := by decide
example : pyReplace (str "aaaa") (str "aa") (str "b") = str "bb" := by decide
example : pyReplace (str "aaa") (str "aa") (str "b") = str "ba" := by decide

theorem pyRepGo_fuel (o : Char) (os new : Str) :
    ∀ fuel fuel' s, s.length ≤ fuel → s.length ≤ fuel' →
      pyRepGo o os new fuel s = pyRepGo o os new fuel' s := by
  intro fuel
  induction fuel with
  | zero =>
    intro fuel' s hs _
    have : s = [] := List.eq_nil_of_length_eq_zero (Nat.le_zero.mp hs)
    subst this
    cases fuel' with
    | zero => rfl
    | succ f' =>
      show pyRepGo o os new 0 [] = pyRepGo o os new (f' + 1) []
      rw [pyRepGo, pyRepGo]
      simp [List.isPrefixOf]
  | succ f ih =>
    intro fuel' s hs hs'
    cases s with
    | nil =>
      rw [pyRepGo]
      cases fuel' with
      | zero => rw [pyRepGo]; simp [List.isPrefixOf]
      | succ f' => rw [pyRepGo]; simp [List.isPrefixOf]
    | cons c cs =>
      have hlen : cs.length + 1 ≤ fuel' := by simpa using hs'
      obtain ⟨f', rfl⟩ : ∃ f', fuel' = f' + 1 := ⟨fuel' - 1, by omega⟩
      rw [pyRepGo, pyRepGo]
      cases hp : ((o :: os).isPrefixOf (c :: cs) : Bool) with
      | true =>
        rw [if_pos rfl, if_pos rfl]
        congr 1
        apply ih
        · simp only [List.length_drop, List.length_cons]
          simp only [List.length_cons] at hs
          omega
        · simp only [List.length_drop, List.length_cons]
          omega
      | false =>
        rw [if_neg (by simp), if_neg (by simp)]
        show c :: pyRepGo o os new f cs = c :: pyRepGo o os new f' cs
        congr 1
        apply ih
        · simp only [List.length_cons] at hs
          omega
        · omega

theorem pyReplace_nil_s (o : Char) (os new : Str) :
    pyReplace [] (o :: os) new = [] := rfl

theorem pyReplace_cons_not_pfx {o c : Char} {os cs : Str} (new : Str)
    (h : (o :: os).isPrefixOf (c :: cs) = false) :
    pyReplace (c :: cs) (o :: os) new = c :: pyReplace cs (o :: os) new := by
  show pyRepGo o os new (cs.length + 1) (c :: cs) = _
  rw [pyRepGo, if_neg (by simp [h])]
  rfl

/-- If the pattern never occurs, `pyReplace` is the identity. -/
theorem pyReplace_of_not_occurs {s new : Str} {o : Char} {os : Str}
    (h : occurs (o :: os) s = false) : pyReplace s (o :: os) new = s := by
  induction s with
  | nil => rfl
  | cons c cs ih =>
    rw [occurs_cons] at h
    have h1 : (o :: os).isPrefixOf (c :: cs) = false :=
      (Bool.or_eq_false_iff.mp h).1
    have h2 : occurs (o :: os) cs = false :=
      (Bool.or_eq_false_iff.mp h).2
    rw [pyReplace_cons_not_pfx new h1, ih h2]

/-- Replacing at a position where the pattern is a prefix. -/
theorem pyReplace_pfx (o : Char) (os b new : Str) :
    pyReplace ((o :: os) ++ b) (o :: os) new
      = new ++ pyReplace b (o :: os) new := by
  show pyRepGo o os new ((o :: os) ++ b).length ((o :: os) ++ b) = _
  have hlen : ((o :: os) ++ b).length = b.length + os.length + 1 := by
    simp [List.length_append]
    omega
  rw [hlen, List.cons_append, pyRepGo]
  have h : (o :: os).isPrefixOf (o :: (os ++ b)) = true := by
    have hh := List.isPrefixOf_iff_prefix.mpr (List.prefix_append (o :: os) b)
    rw [List.cons_append] at hh
    exact hh
  rw [if_pos h]
  have hdrop : (o :: (os ++ b)).drop (os.length + 1) = b := by
    rw [List.drop_succ_cons]
    exact List.drop_left os b
  rw [hdrop]
  congr 1
  exact pyRepGo_fuel o os new _ _ b (by omega) (le_refl _)

/-- If a pattern is a prefix of `x ++ p` with `x` nonempty, it is
already a prefix of `x ++ p.dropLast`. -/
theorem pfx_dropLast {p x : Str} (hx : x ≠ [])
    (h : p.isPrefixOf (x ++ p) = true) :
    p.isPrefixOf (x ++ p.dropLast) = true := by
  cases p with
  | nil => simp [List.isPrefixOf]
  | cons q qs =>
    have h1 : q :: qs <+: x ++ q :: qs := List.isPrefixOf_iff_prefix.mp h
    have h2 : q :: qs = (x ++ q :: qs).take (q :: qs).length :=
      List.prefix_iff_eq_take.mp h1
    apply List.isPrefixOf_iff_prefix.mpr
    apply List.prefix_iff_eq_take.mpr
    have hxlen : 1 ≤ x.length := by
      cases x with
      | nil => exact absurd rfl hx
      | cons _ _ => simp
    have h3 : x ++ (q :: qs).dropLast = (x ++ q :: qs).dropLast := by
      simp
    rw [h3, List.dropLast_eq_take, List.take_take]
    have h4 : min (q :: qs).length ((x ++ q :: qs).length - 1)
        = (q :: qs).length := by
      simp only [List.length_append, List.length_cons]
      omega
    rw [h4]
    exact h2

/-- Replacing a pattern that ends the string and occurs nowhere earlier. -/
theorem pyReplace_tail {o : Char} {os : Str} (a new : Str)
    (h : occurs (o :: os) (a ++ (o :: os).dropLast) = false) :
    pyReplace (a ++ (o :: os)) (o :: os) new = a ++ new := by
  induction a with
  | nil =>
    have h0 : pyReplace ([] : Str) (o :: os) new = [] := rfl
    have hp := pyReplace_pfx o os [] new
    rw [h0, List.append_nil, List.append_nil] at hp
    simpa using hp
  | cons c a' ih =>
    rw [List.cons_append] at h ⊢
    have hpfx : (o :: os).isPrefixOf (c :: (a' ++ (o :: os))) = false := by
      cases hp : ((o :: os).isPrefixOf (c :: (a' ++ (o :: os))) : Bool) with
      | true =>
        exfalso
        have hstep : (o :: os).isPrefixOf
            ((c :: a') ++ (o :: os).dropLast) = true := by
          apply pfx_dropLast (by simp)
          simpa using hp
        have hocc : occurs (o :: os) (c :: (a' ++ (o :: os).dropLast))
            = true := by
          apply occurs_of_isPrefixOf
          simpa using hstep
        rw [hocc] at h
        simp at h
      | false => rfl
    have htail : occurs (o :: os) (a' ++ (o :: os).dropLast) = false := by
      rw [occurs_cons] at h
      exact (Bool.or_eq_false_iff.mp h).2
    rw [pyReplace_cons_not_pfx new hpfx, ih htail, List.cons_append]

/-! ### Path primitives: `os.path.join`, `os.path.splitext`, path splitting -/

/-- `os.path.join` on relative POSIX components, as used throughout the
source: concatenation with a `/` separator (no argument is ever absolute). -/
def pjoin (a b : Str) : Str := a ++ '/' :: b

/-- Split a string at its last `/`: returns (prefix including the slash,
slash-free basename).  No slash: prefix is empty. -/
def splitLastSlash : Str → Str × Str
  | [] => ([], [])
  | c :: t =>
    if occurs ['/'] (c :: t) = false then ([], c :: t)
    else
      let (pre, base) := splitLastSlash t
      (c :: pre, base)

/-- Split a string at its last `.`: `some (a, b)` with `s = a ++ '.' :: b`
and `b` dot-free, or `none` when there is no dot. -/
def lastDotSplit (s : Str) : Option (Str × Str) :=
  match s with
  | [] => none
  | c :: t =>
    match lastDotSplit t with
    | some (a, b) => some (c :: a, b)
    | none => if c = '.' then some ([], t) else none

example : splitLastSlash (str "images/a/b.jpg") = (str "images/a/", str "b.jpg") := by decide
example : splitLastSlash (str "b.jpg") = ([], str "b.jpg") := by decide

/-- Python `os.path.splitext` (POSIX): split off the extension of the last
path component; leading dots of the basename never start an extension. -/
def splitext (p : Str) : Str × Str :=
  let (pre, base) := splitLastSlash p
  let dots := base.takeWhile (fun c => c = '.')
  let core := base.drop dots.length
  match lastDotSplit core with
  | none => (p, [])
  | some (a, b) => (pre ++ dots ++ a, '.' :: b)

example : splitext (str "a.jpg") = (str "a", str ".jpg") := by decide
example : splitext (str "archive.tar.gz") = (str "archive.tar", str ".gz") := by decide
example : splitext (str ".bashrc") = (str ".bashrc", []) := by decide
example : splitext (str "photo") = (str "photo", []) := by decide
example : splitext (str "dir.d/file") = (str "dir.d/file", []) := by decide
example : splitext (str "images/d/f/208.jpg") = (str "images/d/f/208", str ".jpg") := by decide
example : splitext (str "x.images") = (str "x", str ".images") := by decide

theorem occurs_singleton {c : Char} {s : Str} :
    occurs [c] s = true ↔ c ∈ s := by
  induction s with
  | nil => rw [occurs_nil]; simp [List.isPrefixOf]
  | cons d t ih =>
    rw [occurs_cons]
    simp only [List.isPrefixOf, Bool.and_eq_true, beq_iff_eq, Bool.or_eq_true,
      List.isPrefixOf, List.mem_cons]
    constructor
    · rintro (h | h)
      · left
        simpa using h.1
      · exact Or.inr (ih.mp h)
    · rintro (h | h)
      · left
        simp [h]
      · exact Or.inr (ih.mpr h)

theorem occurs_singleton_false {c : Char} {s : Str} :
    occurs [c] s = false ↔ c ∉ s := by
  rw [← occurs_singleton]
  cases h : occurs [c] s <;> simp

theorem lastDotSplit_none_iff {s : Str} :
    lastDotSplit s = none ↔ '.' ∉ s := by
  induction s with
  | nil => simp [lastDotSplit]
  | cons c t ih =>
    rw [lastDotSplit]
    cases hrec : lastDotSplit t with
    | some ab =>
      obtain ⟨a', b'⟩ := ab
      have hdot : '.' ∈ t := by
        by_contra hnd
        rw [ih.mpr hnd] at hrec
        exact Option.noConfusion hrec
      simp [List.mem_cons, hdot]
    | none =>
      by_cases hc : c = '.'
      · subst hc
        simp
      · have hnt : '.' ∉ t := ih.mp hrec
        simp [if_neg hc, List.mem_cons, hnt, Ne.symm hc]

theorem lastDotSplit_eq_some {s a b : Str} (h : lastDotSplit s = some (a, b)) :
    s = a ++ '.' :: b ∧ '.' ∉ b := by
  induction s generalizing a b with
  | nil => simp [lastDotSplit] at h
  | cons c t ih =>
    rw [lastDotSplit] at h
    cases hrec : lastDotSplit t with
    | some ab =>
      obtain ⟨a', b'⟩ := ab
      rw [hrec, Option.some.injEq, Prod.mk.injEq] at h
      obtain ⟨ha, hb⟩ := h
      obtain ⟨heq, hdot⟩ := ih hrec
      subst ha
      subst hb
      constructor
      · rw [heq, List.cons_append]
      · exact hdot
    | none =>
      rw [hrec] at h
      by_cases hc : c = '.'
      · rw [if_pos hc, Option.some.injEq, Prod.mk.injEq] at h
        obtain ⟨ha, hb⟩ := h
        subst ha
        subst hb
        constructor
        · rw [hc, List.nil_append]
        · exact lastDotSplit_none_iff.mp hrec
      · rw [if_neg hc] at h
        exact Option.noConfusion h

theorem lastDotSplit_append {x t : Str} (hx : '.' ∉ x) (ht : '.' ∉ t) :
    lastDotSplit (x ++ '.' :: t) = some (x, t) := by
  induction x with
  | nil =>
    rw [List.nil_append, lastDotSplit, lastDotSplit_none_iff.mpr ht]
    simp
  | cons c x' ih =>
    have hc : '.' ∉ x' := fun hm => hx (List.mem_cons_of_mem _ hm)
    rw [List.cons_append, lastDotSplit, ih hc]

theorem splitLastSlash_no_slash {s : Str} (h : occurs ['/'] s = false) :
    splitLastSlash s = ([], s) := by
  cases s with
  | nil => rfl
  | cons c t => rw [splitLastSlash, if_pos h]

theorem splitLastSlash_append {a b : Str} (hb : occurs ['/'] b = false) :
    splitLastSlash (a ++ '/' :: b) = (a ++ ['/'], b) := by
  induction a with
  | nil =>
    rw [List.nil_append, splitLastSlash]
    have hocc : occurs ['/'] ('/' :: b) = true :=
      occurs_singleton.mpr (List.mem_cons_self _ _)
    rw [if_neg (by simp [hocc])]
    rw [splitLastSlash_no_slash hb]
    rfl
  | cons c a' ih =>
    rw [List.cons_append, splitLastSlash]
    have hocc : occurs ['/'] (c :: (a' ++ '/' :: b)) = true := by
      apply occurs_singleton.mpr
      apply List.mem_cons_of_mem
      exact List.mem_append_right _ (List.mem_cons_self _ _)
    rw [if_neg (by simp [hocc]), ih]
    rfl

theorem occurs_false_of_not_mem {p s : Str} {c : Char} (hc : c ∈ p)
    (hs : c ∉ s) : occurs p s = false := by
  cases h : occurs p s with
  | true => exact absurd (mem_of_occurs h hc) hs
  | false => rfl

theorem occurs_false_of_lt_length {p s : Str} (h : s.length < p.length) :
    occurs p s = false := by
  cases ho : occurs p s with
  | true => exact absurd (occurs_length_le ho) (by omega)
  | false => rfl

theorem occurs_nil_pat_nonempty {o : Char} {os : Str} :
    occurs (o :: os) [] = false := by
  rw [occurs_nil]
  simp [List.isPrefixOf]

/-- `occurs` over `a ++ b` ignores `a` when the pattern's first character
does not appear in `a`. -/
theorem occurs_append_headI {p a : Str} (b : Str) (hp : p ≠ [])
    (ha : p.headI ∉ a) : occurs p (a ++ b) = occurs p b := by
  cases p with
  | nil => exact absurd rfl hp
  | cons h p' => exact occurs_append_head b ha

theorem pyReplace_pfx' {old : Str} (h : old ≠ []) (b new : Str) :
    pyReplace (old ++ b) old new = new ++ pyReplace b old new := by
  cases old with
  | nil => exact absurd rfl h
  | cons o os => exact pyReplace_pfx o os b new

theorem pyReplace_of_not_occurs' {old s new : Str} (h : old ≠ [])
    (ho : occurs old s = false) : pyReplace s old new = s := by
  cases old with
  | nil => exact absurd rfl h
  | cons o os => exact pyReplace_of_not_occurs ho

theorem pyReplace_tail' {old : Str} (a new : Str) (h : old ≠ [])
    (ho : occurs old (a ++ old.dropLast) = false) :
    pyReplace (a ++ old) old new = a ++ new := by
  cases old with
  | nil => exact absurd rfl h
  | cons o os => exact pyReplace_tail a new ho

/-- The basename produced by `splitLastSlash` is slash-free. -/
theorem splitLastSlash_base {s : Str} :
    occurs ['/'] (splitLastSlash s).2 = false := by
  induction s with
  | nil => exact occurs_nil_pat_nonempty
  | cons c t ih =>
    rw [splitLastSlash]
    cases h : occurs ['/'] (c :: t) with
    | false => rw [if_pos rfl]; exact h
    | true =>
      rw [if_neg (by simp)]
      exact ih

/-- Shape of `splitext` on a well-formed image path whose basename is
`ts ++ '.' :: t` with `ts` nonempty not starting with a dot. -/
theorem splitext_shape {pre ts t : Str} {d : Char}
    (hts : ts = d :: ts.tail) (hd : d ≠ '.') (hdts : '.' ∉ ts)
    (hdt : '.' ∉ t) (hslash : occurs ['/'] (ts ++ '.' :: t) = false) :
    splitext (pre ++ '/' :: (ts ++ '.' :: t)) = (pre ++ '/' :: ts, '.' :: t) := by
  rw [splitext]
  simp only [splitLastSlash_append hslash]
  have hdots : (ts ++ '.' :: t).takeWhile (fun c => c = '.') = [] := by
    rw [hts, List.cons_append, List.takeWhile_cons]
    simp [hd]
  rw [hdots]
  simp only [List.length_nil, List.drop_zero]
  rw [lastDotSplit_append hdts hdt]
  simp

/-- A nonempty `splitext` extension starts with a dot and is dot-free and
slash-free afterwards. -/
theorem splitext_ext_struct {p : Str} (h : (splitext p).2 ≠ []) :
    ∃ t, (splitext p).2 = '.' :: t ∧ '.' ∉ t ∧ '/' ∉ t := by
  rw [splitext] at h ⊢
  cases hld : lastDotSplit
      ((splitLastSlash p).2.drop
        ((splitLastSlash p).2.takeWhile (fun c => c = '.')).length) with
  | none => simp [hld] at h
  | some ab =>
    obtain ⟨a, b⟩ := ab
    obtain ⟨heq, hdot⟩ := lastDotSplit_eq_some hld
    refine ⟨b, by simp [hld], hdot, ?_⟩
    intro hmem
    have hb : '/' ∈ (splitLastSlash p).2.drop
        ((splitLastSlash p).2.takeWhile (fun c => c = '.')).length := by
      rw [heq]
      exact List.mem_append_right _ (List.mem_cons_of_mem _ hmem)
    have hbase : '/' ∈ (splitLastSlash p).2 := List.mem_of_mem_drop hb
    exact absurd hbase (occurs_singleton_false.mp splitLastSlash_base)

/-! ### Timestamps and `strftime` formatting -/

def digitsList : Str := str "0123456789"

def digitChar (n : Nat) : Char :=
  if n = 0 then '0' else if n = 1 then '1' else if n = 2 then '2'
  else if n = 3 then '3' else if n = 4 then '4' else if n = 5 then '5'
  else if n = 6 then '6' else if n = 7 then '7' else if n = 8 then '8'
  else '9'

theorem digitChar_mem (n : Nat) : digitChar n ∈ digitsList := by
  unfold digitChar
  repeat' split
  all_goals decide

/-- Decimal digits accumulator (fuel-bounded so it reduces in the kernel). -/
def natDigitsGo : Nat → Nat → Str → Str
  | 0, _, acc => acc
  | fuel + 1, n, acc =>
    if n = 0 then acc else natDigitsGo fuel (n / 10) (digitChar (n % 10) :: acc)

/-- Decimal representation of a natural number. -/
def natDigits (n : Nat) : Str := if n = 0 then ['0'] else natDigitsGo n n []

example : natDigits 2025 = str "2025" := by decide
example : natDigits 0 = str "0" := by decide

theorem natDigitsGo_chars :
    ∀ fuel n acc c, c ∈ natDigitsGo fuel n acc → c ∈ digitsList ∨ c ∈ acc := by
  intro fuel
  induction fuel with
  | zero => intro n acc c h; exact Or.inr h
  | succ f ih =>
    intro n acc c h
    rw [natDigitsGo] at h
    by_cases hn : n = 0
    · rw [if_pos hn] at h
      exact Or.inr h
    · rw [if_neg hn] at h
      rcases ih _ _ _ h with hd | hacc
      · exact Or.inl hd
      · rcases List.mem_cons.mp hacc with he | hm
        · exact Or.inl (he ▸ digitChar_mem _)
        · exact Or.inr hm

theorem natDigits_chars {n : Nat} {c : Char} (h : c ∈ natDigits n) :
    c ∈ digitsList := by
  rw [natDigits] at h
  by_cases hn : n = 0
  · rw [if_pos hn] at h
    rcases List.mem_singleton.mp h with rfl
    decide
  · rw [if_neg hn] at h
    rcases natDigitsGo_chars _ _ _ _ h with hd | habs
    · exact hd
    · exact absurd habs (List.not_mem_nil c)

/-- Zero-padded decimal rendering, `"%0{w}d"`; wider numbers keep all their
digits as `strftime` does. -/
def padNat (w n : Nat) : Str :=
  List.replicate (w - (natDigits n).length) '0' ++ natDigits n

example : padNat 2 7 = str "07" := by decide
example : padNat 2 13 = str "13" := by decide
example : padNat 6 123456 = str "123456" := by decide

theorem padNat_chars {w n : Nat} {c : Char} (h : c ∈ padNat w n) :
    c ∈ digitsList := by
  rcases List.mem_append.mp h with hr | hd
  · rw [List.eq_of_mem_replicate hr]
    decide
  · exact natDigits_chars hd

theorem natDigits_ne_nil (n : Nat) : natDigits n ≠ [] := by
  rw [natDigits]
  by_cases hn : n = 0
  · simp [hn]
  · rw [if_neg hn]
    cases n with
    | zero => exact absurd rfl hn
    | succ m =>
      rw [natDigitsGo, if_neg hn]
      intro hcontra
      have hlen : ∀ fuel k acc, acc.length ≤ (natDigitsGo fuel k acc).length := by
        intro fuel
        induction fuel with
        | zero => intro k acc; exact le_refl _
        | succ f ihf =>
          intro k acc
          rw [natDigitsGo]
          by_cases hk : k = 0
          · rw [if_pos hk]
          · rw [if_neg hk]
            calc acc.length ≤ (digitChar (k % 10) :: acc).length := by simp
              _ ≤ _ := ihf _ _
      have h1 := hlen m ((m + 1) / 10) [digitChar ((m + 1) % 10)]
      rw [hcontra] at h1
      simp at h1

theorem padNat_len_ge (w n : Nat) : w ≤ (padNat w n).length := by
  rw [padNat, List.length_append, List.length_replicate]
  omega

theorem padNat_ne_nil {w n : Nat} (hw : 1 ≤ w) : padNat w n ≠ [] := by
  intro h
  have := padNat_len_ge w n
  rw [h] at this
  simp at this
  omega

/-- `datetime.now()` value: the source only ever formats it, so it is a plain
record of calendar/clock fields (microsecond precision like Python). -/
structure DTime where
  year : Nat
  month : Nat
  day : Nat
  hour : Nat
  minute : Nat
  second : Nat
  usec : Nat
deriving DecidableEq

/-- `now.strftime("%Y-%m-%d")`. -/
def fmtDate (t : DTime) : Str :=
  padNat 4 t.year ++ '-' :: (padNat 2 t.month ++ '-' :: padNat 2 t.day)

/-- `now.strftime("%Y%m%d_%H%M%S")`. -/
def fmtCompact (t : DTime) : Str :=
  padNat 4 t.year ++ padNat 2 t.month ++ padNat 2 t.day ++
    '_' :: (padNat 2 t.hour ++ padNat 2 t.minute ++ padNat 2 t.second)

/-- `now.strftime("%Y%m%d_%H%M%S_%f")`. -/
def fmtMicro (t : DTime) : Str :=
  fmtCompact t ++ '_' :: padNat 6 t.usec

/-- `now.isoformat()` (microseconds omitted when zero, as in Python). -/
def fmtIso (t : DTime) : Str :=
  padNat 4 t.year ++ '-' :: (padNat 2 t.month ++ '-' :: (padNat 2 t.day ++
    'T' :: (padNat 2 t.hour ++ ':' :: (padNat 2 t.minute ++ ':' ::
      (padNat 2 t.second ++
        (if t.usec = 0 then [] else '.' :: padNat 6 t.usec))))))

theorem fmtDate_chars {t : DTime} {c : Char} (h : c ∈ fmtDate t) :
    c ∈ digitsList ∨ c = '-' := by
  rw [fmtDate] at h
  rcases List.mem_append.mp h with h1 | h2
  · exact Or.inl (padNat_chars h1)
  · rcases List.mem_cons.mp h2 with rfl | h3
    · exact Or.inr rfl
    · rcases List.mem_append.mp h3 with h4 | h5
      · exact Or.inl (padNat_chars h4)
      · rcases List.mem_cons.mp h5 with rfl | h6
        · exact Or.inr rfl
        · exact Or.inl (padNat_chars h6)

theorem fmtCompact_chars {t : DTime} {c : Char} (h : c ∈ fmtCompact t) :
    c ∈ digitsList ∨ c = '_' := by
  rw [fmtCompact] at h
  rcases List.mem_append.mp h with h1 | h2
  · rcases List.mem_append.mp h1 with h3 | h4
    · rcases List.mem_append.mp h3 with h5 | h6
      · exact Or.inl (padNat_chars h5)
      · exact Or.inl (padNat_chars h6)
    · exact Or.inl (padNat_chars h4)
  · rcases List.mem_cons.mp h2 with rfl | h3
    · exact Or.inr rfl
    · rcases List.mem_append.mp h3 with h4 | h5
      · rcases List.mem_append.mp h4 with h6 | h7
        · exact Or.inl (padNat_chars h6)
        · exact Or.inl (padNat_chars h7)
      · exact Or.inl (padNat_chars h5)

theorem fmtMicro_chars {t : DTime} {c : Char} (h : c ∈ fmtMicro t) :
    c ∈ digitsList ∨ c = '_' := by
  rw [fmtMicro] at h
  rcases List.mem_append.mp h with h1 | h2
  · exact fmtCompact_chars h1
  · rcases List.mem_cons.mp h2 with rfl | h3
    · exact Or.inr rfl
    · exact Or.inl (padNat_chars h3)

/-- `now.strftime("%Y%m%d_%H%M%S_%f")[:-3]`: the millisecond-precision stamp
used for generated filenames (Python `[:-3]` drops the last 3 characters). -/
def fnameStamp (t : DTime) : Str :=
  (fmtMicro t).take ((fmtMicro t).length - 3)

example : fnameStamp ⟨2025, 10, 12, 3, 4, 5, 123456⟩
    = str "20251012_030405_123" := by decide

theorem fnameStamp_chars {t : DTime} {c : Char} (h : c ∈ fnameStamp t) :
    c ∈ digitsList ∨ c = '_' :=
  fmtMicro_chars (List.take_subset _ _ h)

theorem fnameStamp_not_mem {t : DTime} {c : Char} (hc : c ∉ digitsList)
    (hu : c ≠ '_') : c ∉ fnameStamp t :=
  fun h => (fnameStamp_chars h).elim (fun hd => hc hd) (fun he => hu he)

theorem fmtDate_not_mem {t : DTime} {c : Char} (hc : c ∉ digitsList)
    (hd : c ≠ '-') : c ∉ fmtDate t :=
  fun h => (fmtDate_chars h).elim (fun hm => hc hm) (fun he => hd he)

theorem fmtMicro_len (t : DTime) : 22 ≤ (fmtMicro t).length := by
  rw [fmtMicro, fmtCompact]
  simp only [List.length_append, List.length_cons]
  have h1 := padNat_len_ge 4 t.year
  have h2 := padNat_len_ge 2 t.month
  have h3 := padNat_len_ge 2 t.day
  have h4 := padNat_len_ge 2 t.hour
  have h5 := padNat_len_ge 2 t.minute
  have h6 := padNat_len_ge 2 t.second
  have h7 := padNat_len_ge 6 t.usec
  omega

theorem fnameStamp_ne_nil (t : DTime) : fnameStamp t ≠ [] := by
  have hl := fmtMicro_len t
  rw [fnameStamp]
  intro h
  have := congrArg List.length h
  rw [List.length_take] at this
  simp at this
  omega

theorem headI_append {a : Str} (b : Str) (ha : a ≠ []) :
    (a ++ b).headI = a.headI := by
  cases a with
  | nil => exact absurd rfl ha
  | cons c t => rfl

theorem headI_take {l : Str} {k : Nat} (hk : 1 ≤ k) :
    (l.take k).headI = l.headI := by
  cases l with
  | nil => simp
  | cons c t =>
    cases k with
    | zero => omega
    | succ m => rfl

theorem headI_mem_of_ne_nil {l : Str} (h : l ≠ []) : l.headI ∈ l := by
  cases l with
  | nil => exact absurd rfl h
  | cons c t => exact List.mem_cons_self c t

theorem padNat_headI_mem (w n : Nat) (hw : 1 ≤ w) :
    (padNat w n).headI ∈ digitsList :=
  padNat_chars (headI_mem_of_ne_nil (padNat_ne_nil hw))

theorem fnameStamp_headI_mem (t : DTime) : (fnameStamp t).headI ∈ digitsList := by
  rw [fnameStamp, headI_take (by have := fmtMicro_len t; omega)]
  rw [fmtMicro, fmtCompact]
  rw [List.append_assoc, List.append_assoc, List.append_assoc]
  rw [headI_append _ (padNat_ne_nil (by omega))]
  exact padNat_headI_mem 4 t.year (by omega)

theorem fnameStamp_cons (t : DTime) :
    fnameStamp t = (fnameStamp t).headI :: (fnameStamp t).tail := by
  cases hfs : fnameStamp t with
  | nil => exact absurd hfs (fnameStamp_ne_nil t)
  | cons d tl => rfl

/-! ### Filesystem model -/

/-- Lookup in a path-keyed association list. -/
def fsGet {α : Type} : List (Str × α) → Str → Option α
  | [], _ => none
  | (k', v) :: t, k => if k' = k then some v else fsGet t k

/-- `open(path, "w")`-style write: truncates any existing file at `path`. -/
def fsWrite {α : Type} (m : List (Str × α)) (k : Str) (v : α) :
    List (Str × α) :=
  m.filter (fun p => if p.1 = k then false else true) ++ [(k, v)]

theorem fsGet_append {α : Type} (a b : List (Str × α)) (k : Str) :
    fsGet (a ++ b) k = ((fsGet a k).map some).getD (fsGet b k) := by
  induction a with
  | nil => simp [fsGet]
  | cons p t ih =>
    obtain ⟨k', v⟩ := p
    rw [List.cons_append, fsGet, fsGet]
    by_cases h : k' = k
    · simp [h]
    · simp only [if_neg h]
      exact ih

theorem fsGet_filter_ne {α : Type} (m : List (Str × α)) (k : Str) :
    fsGet (m.filter (fun p => if p.1 = k then false else true)) k = none := by
  induction m with
  | nil => rfl
  | cons p t ih =>
    obtain ⟨k', v⟩ := p
    rw [List.filter_cons]
    by_cases h : k' = k
    · simp only [h]
      simpa using ih
    · simp only [if_neg h]
      simpa [fsGet, h] using ih

theorem fsGet_write_self {α : Type} (m : List (Str × α)) (k : Str) (v : α) :
    fsGet (fsWrite m k v) k = some v := by
  rw [fsWrite, fsGet_append, fsGet_filter_ne]
  simp [fsGet]

theorem fsGet_write_other {α : Type} (m : List (Str × α)) {k k' : Str} (v : α)
    (h : k' ≠ k) : fsGet (fsWrite m k v) k' = fsGet m k' := by
  rw [fsWrite, fsGet_append]
  have htail : fsGet [(k, v)] k' = none := by
    rw [fsGet, if_neg (fun he => h he.symm)]
    rfl
  rw [htail]
  induction m with
  | nil => rfl
  | cons p t ih =>
    obtain ⟨k'', v'⟩ := p
    rw [List.filter_cons]
    by_cases h2 : k'' = k
    · have h3 : ¬ k'' = k' := fun he => h (he.symm.trans h2)
      subst h2
      rw [fsGet, if_neg h3]
      simpa using ih
    · simp only [if_neg h2]
      rw [fsGet]
      by_cases h3 : k'' = k'
      · simp [fsGet, h3]
      · rw [if_neg h3]
        simpa [fsGet, h3] using ih

/-- Split a path into `/`-separated components. -/
def splitSlash : Str → List Str
  | [] => [[]]
  | c :: t =>
    if c = '/' then [] :: splitSlash t
    else
      match splitSlash t with
      | h :: r => (c :: h) :: r
      | [] => [[c]]

example : splitSlash (str "images/d/f.jpg") = [str "images", str "d", str "f.jpg"] := by decide

/-- `os.path.dirname` (POSIX, relative paths as used here). -/
def dirname (p : Str) : Str := (splitLastSlash p).1.dropLast

/-- `os.path.basename` (POSIX). -/
def basename (p : Str) : Str := (splitLastSlash p).2

example : dirname (str "images/d/f.jpg") = str "images/d" := by decide
example : basename (str "images/d/f.jpg") = str "f.jpg" := by decide
example : dirname (str "f.jpg") = [] := by decide
example : basename (dirname (str "images/x.jpg")) = str "images" := by decide

def addDir (dirs : List Str) (d : Str) : List Str :=
  if d ∈ dirs then dirs else dirs ++ [d]

def joinComps : List Str → Str
  | [] => []
  | [x] => x
  | x :: xs => x ++ '/' :: joinComps xs

/-- `os.makedirs(p, exist_ok=True)`: record `p` and every ancestor. -/
def makedirs (dirs : List Str) (p : Str) : List Str :=
  let comps := splitSlash p
  (List.range comps.length).foldl
    (fun d i => addDir d (joinComps (comps.take (i + 1)))) dirs

example : makedirs [] (str "images/d/flight_x")
    = [str "images", str "images/d", str "images/d/flight_x"] := by decide

/-- The name of `d` as an immediate child of directory `base`, if it is one. -/
def immChild (base d : Str) : Option Str :=
  if (base ++ ['/']).isPrefixOf d then
    let rest := d.drop (base.length + 1)
    if occurs ['/'] rest = false ∧ rest ≠ [] then some rest else none
  else none

/-- Immediate child directories of `base` (for `os.listdir` + `os.path.isdir`). -/
def childDirs (dirs : List Str) (base : Str) : List Str :=
  dirs.filterMap (fun d => immChild base d)

/-- Immediate child files of `base` (for `os.listdir` + `os.path.isfile`). -/
def childFiles {α : Type} (files : List (Str × α)) (base : Str) : List Str :=
  files.filterMap (fun p => immChild base p.1)

example : childDirs [str "images", str "images/d", str "images/d/flight_x"]
    (str "images/d") = [str "flight_x"] := by decide
example : childFiles [(str "images/d/flight_x/a.jpg", [1, 2])]
    (str "images/d/flight_x") = [str "a.jpg"] := by decide

/-! ### Server data model (src/server.py) -/

/-- An incoming multipart file: client-supplied name, raw bytes, declared
content type. -/
structure UFile where
  filename : Str
  content : List Nat
  content_type : Option Str
deriving DecidableEq

/-- The metadata dictionary written by `upload_image`/`upload_batch` plus the
server-side fields added by `save_metadata`.  `camera_settings` keeps the raw
accepted JSON text (`json.loads` parsing of this external format is modelled
by the IO oracle below); batch uploads leave `camera_settings`/`notes` as
`none` (the source omits those keys). -/
structure MetaRecord where
  original_filename : Str
  stored_filename : Str
  upload_timestamp : Str
  flight_id : Option Str
  gps_latitude : Option Rat
  gps_longitude : Option Rat
  altitude : Option Rat
  camera_settings : Option Str
  notes : Option Str
  file_size : Nat
  content_type : Option Str
  server_timestamp : Str
  image_path : Str
  metadata_file : Str
deriving DecidableEq

/-- On-disk state: the three trees rooted at `images/`, `metadata/` and
`logs/`, each an association of full path strings to contents, plus the
directories created so far (for `os.path.exists`/`os.listdir`). -/
structure ServerState where
  imageFiles : List (Str × List Nat)
  imageDirs : List Str
  metaFiles : List (Str × MetaRecord)
  metaDirs : List Str
  logFiles : List (Str × List Str)
deriving DecidableEq

/-- Fresh server: the startup loop (server.py:22-24) creates the three roots. -/
def emptyState : ServerState :=
  { imageFiles := []
    imageDirs := [str "images"]
    metaFiles := []
    metaDirs := [str "metadata"]
    logFiles := [] }

/-- Optional form fields of `POST /upload/`. -/
structure UploadOpts where
  flight_id : Option Str
  gps_latitude : Option Rat
  gps_longitude : Option Rat
  altitude : Option Rat
  camera_settings : Option Str
  notes : Option Str
deriving DecidableEq

/-- Failure injection for the externally-failable steps of one upload:
the image `open`/`write`, `json.loads(camera_settings)`, the metadata
`open`/`json.dump`, and the log append. -/
structure IOOracle where
  imageWriteOk : Bool
  cameraSettingsOk : Bool
  metadataWriteOk : Bool
  logWriteOk : Bool
deriving DecidableEq

def okOracle : IOOracle := ⟨true, true, true, true⟩

/-- The flight folder name chosen by `get_timestamped_path` (server.py:32-35). -/
def flightFolderOf (fid : Option Str) (now : DTime) : Str :=
  match fid with
  | some f => str "flight_" ++ f
  | none => str "flight_" ++ fmtCompact now

/-- `get_timestamped_path` (server.py:27-40): returns the destination
directory, its date and flight components, and the updated directory set. -/
def get_timestamped_path (fid : Option Str) (now : DTime) (dirs : List Str) :
    Str × Str × Str × List Str :=
  let date_folder := fmtDate now
  let flight_folder := flightFolderOf fid now
  let full_path := pjoin (pjoin (str "images") date_folder) flight_folder
  (full_path, date_folder, flight_folder, makedirs dirs full_path)

/-- `generate_filename` (server.py:43-48): millisecond timestamp plus the
original extension — no disambiguation of any kind. -/
def generate_filename (original_filename : Str) (now : DTime) : Str :=
  fnameStamp now ++ (splitext original_filename).2

/-- The metadata path computed (identically) by `save_metadata`
(server.py:53-55) and `get_metadata` (server.py:320-322):
`image_path.replace(IMAGE_DIR, METADATA_DIR).replace(splitext(image_path)[1], ".json")`. -/
def metaPathOf (image_path : Str) : Str :=
  pyReplace (pyReplace image_path (str "images") (str "metadata"))
    (splitext image_path).2 (str ".json")

example : metaPathOf (str "images/2025-10-12/flight_X/20251012_030405_123.jpg")
    = str "metadata/2025-10-12/flight_X/20251012_030405_123.json" := by decide

/-- `save_metadata` (server.py:51-68): ensure the mirrored directory, add the
server-side fields, write the record.  `ok = false` models the write raising;
the directory creation has already happened. -/
def save_metadata (st : ServerState) (image_path : Str) (md : MetaRecord)
    (now : DTime) (ok : Bool) :
    ServerState × Option (Str × MetaRecord) :=
  let metadata_file := metaPathOf image_path
  let st1 := { st with metaDirs := makedirs st.metaDirs (dirname metadata_file) }
  let record := { md with
    server_timestamp := fmtIso now
    image_path := image_path
    metadata_file := metadata_file }
  if ok then
    ({ st1 with metaFiles := fsWrite st1.metaFiles metadata_file record },
      some (metadata_file, record))
  else (st1, none)

/-- `log_upload` (server.py:71-76): append one line to the daily log file;
`ok = false` models the append raising. -/
def log_upload (st : ServerState) (filename : Str) (fid : Option Str)
    (now : DTime) (ok : Bool) : ServerState × Bool :=
  if ok then
    let log_file := pjoin (str "logs")
      (str "uploads_" ++ fmtDate now ++ str ".log")
    let line := fmtIso now ++ str " | Flight: " ++
      (match fid with
       | some f => if f = [] then str "N/A" else f
       | none => str "N/A") ++ str " | Image: " ++ filename
    let old := (fsGet st.logFiles log_file).getD []
    ({ st with logFiles := fsWrite st.logFiles log_file (old ++ [line]) }, true)
  else (st, false)

/-- Response body of a successful `POST /upload/` (server.py:137-144). -/
structure UploadResp where
  filename : Str
  path : Str
  metadata_file : Str
  flight_id : Str
  uploaded_at : Str
deriving DecidableEq

/-- Outcome of `POST /upload/`: success body, or `HTTPException(500, ...)`. -/
inductive UploadResult where
  | success (resp : UploadResp)
  | failure (code : Nat) (detail : Str)
deriving DecidableEq

def UploadResult.isSuccess : UploadResult → Bool
  | .success _ => true
  | .failure _ _ => false

/-- `upload_image` (server.py:90-146).  Every `datetime.now()` call within the
request is modelled by the single `now`.  Failure at any injected point
surfaces as the route's `HTTPException(500, ...)`; state changes made before
the failing step persist, exactly as in the source. -/
def upload_image (st : ServerState) (file : UFile) (opts : UploadOpts)
    (now : DTime) (io : IOOracle) : ServerState × UploadResult :=
  let r := get_timestamped_path opts.flight_id now st.imageDirs
  let full_path := r.1
  let flight_folder := r.2.2.1
  let st1 := { st with imageDirs := r.2.2.2 }
  let filename := generate_filename file.filename now
  let image_path := pjoin full_path filename
  if io.imageWriteOk then
    let st2 := { st1 with
      imageFiles := fsWrite st1.imageFiles image_path file.content }
    if opts.camera_settings.isSome && !io.cameraSettingsOk then
      (st2, .failure 500 (str "Upload failed: camera_settings parse error"))
    else
      let md : MetaRecord := {
        original_filename := file.filename
        stored_filename := filename
        upload_timestamp := fmtIso now
        flight_id := opts.flight_id
        gps_latitude := opts.gps_latitude
        gps_longitude := opts.gps_longitude
        altitude := opts.altitude
        camera_settings := opts.camera_settings
        notes := opts.notes
        file_size := file.content.length
        content_type := file.content_type
        server_timestamp := []
        image_path := []
        metadata_file := [] }
      let sm := save_metadata st2 image_path md now io.metadataWriteOk
      match sm.2 with
      | none =>
        (sm.1, .failure 500 (str "Upload failed: metadata write error"))
      | some (metadata_file, record) =>
        let lg := log_upload sm.1 filename opts.flight_id now io.logWriteOk
        if lg.2 then
          (lg.1, .success {
            filename := filename
            path := image_path
            metadata_file := metadata_file
            flight_id := match opts.flight_id with
              | some f => if f = [] then flight_folder else f
              | none => flight_folder
            uploaded_at := record.upload_timestamp })
        else (lg.1, .failure 500 (str "Upload failed: log write error"))
  else (st1, .failure 500 (str "Upload failed: image write error"))

/-- One per-entry outcome of `POST /upload/batch` (server.py:195-205):
success carries the stored name and path, failure the original name and the
error text. -/
inductive BatchEntry where
  | ok (filename : Str) (path : Str)
  | err (filename : Str) (error : Str)
deriving DecidableEq

def BatchEntry.isOk : BatchEntry → Bool
  | .ok _ _ => true
  | .err _ _ => false

def BatchEntry.name : BatchEntry → Str
  | .ok f _ => f
  | .err f _ => f

/-- Response body of `POST /upload/batch` (server.py:207-212). -/
structure BatchResult where
  total : Nat
  successful : Nat
  failed : Nat
  results : List BatchEntry
deriving DecidableEq

/-- The per-file loop body of `upload_batch` (server.py:160-205).  The body
repeats the steps of `upload_image` (without `camera_settings`/`notes`), so
it is expressed through `upload_image`; an exception becomes an `err` entry
carrying the original filename instead of aborting. -/
def upload_batch_go (fid : Option Str) (lat lon alt : Option Rat)
    (now : DTime) (ios : Nat → IOOracle) :
    List UFile → Nat → ServerState → List BatchEntry →
      ServerState × List BatchEntry
  | [], _, st, acc => (st, acc)
  | f :: rest, i, st, acc =>
    let opts : UploadOpts :=
      { flight_id := fid, gps_latitude := lat, gps_longitude := lon,
        altitude := alt, camera_settings := none, notes := none }
    let step := upload_image st f opts now (ios i)
    let entry : BatchEntry :=
      match step.2 with
      | .success resp => .ok resp.filename resp.path
      | .failure _ detail => .err f.filename detail
    upload_batch_go fid lat lon alt now ios rest (i + 1) step.1 (acc ++ [entry])

/-- `upload_batch` (server.py:149-212): per-entry isolation, counts computed
from the collected results, order preserved. -/
def upload_batch (st : ServerState) (files : List UFile) (fid : Option Str)
    (lat lon alt : Option Rat) (now : DTime) (ios : Nat → IOOracle) :
    ServerState × BatchResult :=
  let r := upload_batch_go fid lat lon alt now ios files 0 st []
  (r.1,
    { total := files.length
      successful := (r.2.filter (fun e => e.isOk)).length
      failed := (r.2.filter (fun e => !e.isOk)).length
      results := r.2 })

/-- One record of `GET /images/` (server.py:239-243, 250-254). -/
structure ImgRec where
  filename : Str
  path : Str
  flight_id : Option Str
deriving DecidableEq

/-- Response of `GET /images/`: full listing or the `simple` projection. -/
inductive ListResult where
  | listing (total : Nat) (images : List ImgRec)
  | simpleListing (images : List Str)
deriving DecidableEq

/-- HTTP-level outcome: `Except (status, detail)`. -/
abbrev HResp (α : Type) := Except (Nat × Str) α

instance {ε α : Type} [DecidableEq ε] [DecidableEq α] :
    DecidableEq (Except ε α)
  | .ok a, .ok b =>
    if h : a = b then isTrue (by rw [h])
    else isFalse (by intro he; injection he; exact h (by assumption))
  | .ok _, .error _ => isFalse (by intro h; exact Except.noConfusion h)
  | .error _, .ok _ => isFalse (by intro h; exact Except.noConfusion h)
  | .error e, .error f =>
    if h : e = f then isTrue (by rw [h])
    else isFalse (by intro he; injection he; exact h (by assumption))

/-- `list_images` (server.py:215-266).  With `date` the traversal is listdir
based (`flight_id` filtered, Python truthiness: an empty-string filter is
ignored); without `date` the whole tree is walked and `flight_id` is ignored
(the source applies no filter in that branch). -/
def flightMismatch (flight_id : Option Str) (folder : Str) : Bool :=
  match flight_id with
  | some fid =>
    (if fid = [] then false else true) &&
      (if str "flight_" ++ fid = folder then false else true)
  | none => false

/-- The response tail of `list_images` (server.py:230, 256-266): the 404 for
a missing date directory, the 404 on an empty result set, and the `simple`
projection. -/
def finishListing (images_list : Option (List ImgRec)) (date : Option Str)
    (simple : Bool) : HResp ListResult :=
  match images_list, date with
  | none, some d =>
    .error (404, str "No images found for date: " ++ d)
  | none, none => .error (404, str "No images found")
  | some l, _ =>
    if l = [] then .error (404, str "No images found")
    else if simple then .ok (.simpleListing (l.map (fun r => r.filename)))
    else .ok (.listing l.length l)

def list_images (st : ServerState) (flight_id : Option Str)
    (date : Option Str) (simple : Bool) : HResp ListResult :=
  let images_list : Option (List ImgRec) :=
    match date with
    | some d =>
      let date_path := pjoin (str "images") d
      if date_path ∈ st.imageDirs ∨ (fsGet st.imageFiles date_path).isSome then
        some ((childDirs st.imageDirs date_path).flatMap (fun folder =>
          if flightMismatch flight_id folder then []
          else
            (childFiles st.imageFiles (pjoin date_path folder)).map
              (fun filename =>
                ({ filename := filename
                   path := d ++ '/' :: (folder ++ '/' :: filename)
                   flight_id :=
                     some (pyReplace folder (str "flight_") []) } : ImgRec))))
      else none
    | none =>
      some (st.imageFiles.map (fun p =>
        let rel := if (str "images/").isPrefixOf p.1 then p.1.drop 7 else p.1
        let flight_folder := basename (dirname rel)
        ({ filename := basename p.1
           path := pyReplace rel ['\\'] ['/']
           flight_id :=
             if occurs (str "flight_") flight_folder then
               some (pyReplace flight_folder (str "flight_") [])
             else none } : ImgRec)))
  finishListing images_list date simple

/-- The fixed suffix table of `get_image` (server.py:279-286). -/
def contentTypeFor (ext : Str) : Str :=
  if ext = str ".jpg" then str "image/jpeg"
  else if ext = str ".jpeg" then str "image/jpeg"
  else if ext = str ".png" then str "image/png"
  else if ext = str ".tiff" then str "image/tiff"
  else if ext = str ".tif" then str "image/tiff"
  else str "image/jpeg"

def lowerStr (s : Str) : Str := s.map Char.toLower

/-- `get_image` (server.py:269-288): exact-path lookup, content type from the
lower-cased extension of the requested filename. -/
def get_image (st : ServerState) (date flight_folder filename : Str) :
    HResp (List Nat × Str) :=
  let image_path :=
    pjoin (pjoin (pjoin (str "images") date) flight_folder) filename
  match fsGet st.imageFiles image_path with
  | some content =>
    .ok (content, contentTypeFor (lowerStr (splitext filename).2))
  | none => .error (404, str "Image not found")

/-- `get_metadata` (server.py:316-330): recompute the mirrored path with the
same string transformation as `save_metadata` and read it. -/
def get_metadata (st : ServerState) (date flight_folder filename : Str) :
    HResp MetaRecord :=
  let image_path :=
    pjoin (pjoin (pjoin (str "images") date) flight_folder) filename
  match fsGet st.metaFiles (metaPathOf image_path) with
  | some md => .ok md
  | none => .error (404, str "Metadata not found")

/-- One record of `GET /flights/` (server.py:345-350). -/
structure FlightRec where
  date : Str
  flight_id : Str
  path : Str
  image_count : Nat
deriving DecidableEq

/-- `list_flights` (server.py:333-358). -/
def list_flights (st : ServerState) : HResp (Nat × List FlightRec) :=
  let flights :=
    (childDirs st.imageDirs (str "images")).flatMap (fun date_folder =>
      (childDirs st.imageDirs (pjoin (str "images") date_folder)).filterMap
        (fun flight_folder =>
          if occurs (str "flight_") flight_folder then
            some ({ date := date_folder
                    flight_id := pyReplace flight_folder (str "flight_") []
                    path := date_folder ++ '/' :: flight_folder
                    image_count :=
                      (childFiles st.imageFiles
                        (pjoin (pjoin (str "images") date_folder)
                          flight_folder)).length } : FlightRec)
          else none))
  if flights = [] then .error (404, str "No flights found")
  else .ok (flights.length, flights)

/-- `flights[flight_id] += 1` with default 0 (server.py:378-380); Python dicts
keep insertion order, so a fresh key is appended. -/
def bump (m : List (Str × Nat)) (k : Str) : List (Str × Nat) :=
  if (fsGet m k).isSome then
    m.map (fun p => if p.1 = k then (p.1, p.2 + 1) else p)
  else m ++ [(k, 1)]

/-- The parent-directory name of a file path, as
`os.path.basename(os.path.dirname(path))` computes it. -/
def parentName (p : Str) : Str := basename (dirname p)

example : parentName (str "images/d/flight_x/a.jpg") = str "flight_x" := by decide
example : parentName (str "images/a.jpg") = str "images" := by decide

/-- The accumulator loop of `get_stats` (server.py:368-380) over the files of
the walk: counts files, sums byte sizes, and groups by inferred flight id
when the parent directory name contains `"flight_"`. -/
def statsFold :
    List (Str × List Nat) → Nat × Nat × List (Str × Nat) →
      Nat × Nat × List (Str × Nat)
  | [], acc => acc
  | (path, content) :: rest, (t, sz, fl) =>
    let folder := parentName path
    let fl' :=
      if occurs (str "flight_") folder then
        bump fl (pyReplace folder (str "flight_") [])
      else fl
    statsFold rest (t + 1, sz + content.length, fl')

/-- Rounding of `round(x, 2)` on the reported size (ties, which Python floats
round to even, do not arise at any input considered here). -/
def pyRound2 (x : Rat) : Rat := (round (x * 100) : Int) / 100

/-- Response of `GET /stats/` (server.py:382-388): note the size is reported
in gibibytes rounded to two decimals (`total_size_gb`), not in bytes. -/
structure StatsResult where
  total_images : Nat
  total_size_gb : Rat
  total_flights : Nat
  images_per_flight : List (Str × Nat)
  timestamp : Str
deriving DecidableEq

/-- `get_stats` (server.py:361-388). -/
def get_stats (st : ServerState) (now : DTime) : StatsResult :=
  let r := statsFold st.imageFiles (0, 0, [])
  { total_images := r.1
    total_size_gb := pyRound2 ((r.2.1 : Rat) / (1024 ^ 3))
    total_flights := r.2.2.length
    images_per_flight := r.2.2
    timestamp := fmtIso now }

/-! ### Concrete fixtures for the claims -/

/-- A fixed request time (2025-10-12 03:04:05.123456). -/
def demoNow : DTime := ⟨2025, 10, 12, 3, 4, 5, 123456⟩

/-- One millisecond after `demoNow`. -/
def demoNow2 : DTime := ⟨2025, 10, 12, 3, 4, 5, 124456⟩

/-- Upload options targeting group `"X"` with no other metadata. -/
def optsX : UploadOpts := ⟨some (str "X"), none, none, none, none, none⟩

def fileA : UFile := ⟨str "a.jpg", [1, 2, 3], none⟩
def fileB : UFile := ⟨str "b.jpg", [7, 7], none⟩

/-- Where both same-millisecond uploads of the burst land. -/
def demoImgPath : Str := str "images/2025-10-12/flight_X/20251012_030405_123.jpg"

def demoMetaPath : Str :=
  str "metadata/2025-10-12/flight_X/20251012_030405_123.json"

example : (upload_image emptyState fileA optsX demoNow okOracle).2.isSuccess
    = true := by decide

/-- Claim C1 (code_bug): the spec requires that N uploads issued within the
same millisecond into the same group get pairwise-distinct `storedName`s, and
§9 of the spec itself flags the source's naming as lacking the mandated
disambiguation.  The code indeed has none: `generate_filename` is a pure
millisecond-truncated timestamp plus the original extension, so a burst of
two same-millisecond uploads into group `"X"` produces identical stored
names, both report success, and the second write silently overwrites the
first (the final store holds a single file containing the second file's
bytes `[7, 7]`, the first upload's bytes `[1, 2, 3]` are lost). -/
theorem c1_burst_collision :
    generate_filename (str "a.jpg") demoNow
      = generate_filename (str "b.jpg") demoNow ∧
    (upload_batch emptyState [fileA, fileB] (some (str "X")) none none none
        demoNow (fun _ => okOracle)).2.results
      = [.ok (str "20251012_030405_123.jpg") demoImgPath,
         .ok (str "20251012_030405_123.jpg") demoImgPath] ∧
    (upload_batch emptyState [fileA, fileB] (some (str "X")) none none none
        demoNow (fun _ => okOracle)).2.successful = 2 ∧
    (upload_batch emptyState [fileA, fileB] (some (str "X")) none none none
        demoNow (fun _ => okOracle)).1.imageFiles
      = [(demoImgPath, [7, 7])] := by decide

/-- Claim C6 (code_bug): `log_upload` is called inside the route's `try`
block with no exception handling of its own, so a failing audit-log append
fails the whole upload with a 500 even though the image bytes and the
metadata record were both already written and remain on disk. -/
theorem c6_log_failure_fails_upload :
    (upload_image emptyState fileA optsX demoNow ⟨true, true, true, false⟩).2
      = .failure 500 (str "Upload failed: log write error") ∧
    fsGet (upload_image emptyState fileA optsX demoNow
        ⟨true, true, true, false⟩).1.imageFiles demoImgPath = some [1, 2, 3] ∧
    (fsGet (upload_image emptyState fileA optsX demoNow
        ⟨true, true, true, false⟩).1.metaFiles demoMetaPath).isSome
      = true := by decide

/-- Claim C3 counterexample: an upload whose metadata write fails reports
failure (500), yet the image written just before remains fully retrievable
by `get_image` while `get_metadata` 404s — an orphaned partial artifact
after a reported failure. -/
theorem c3_counterexample :
    (upload_image emptyState fileA optsX demoNow
        ⟨true, true, false, true⟩).2.isSuccess = false ∧
    get_image (upload_image emptyState fileA optsX demoNow
        ⟨true, true, false, true⟩).1 (str "2025-10-12") (str "flight_X")
        (str "20251012_030405_123.jpg")
      = .ok ([1, 2, 3], str "image/jpeg") ∧
    get_metadata (upload_image emptyState fileA optsX demoNow
        ⟨true, true, false, true⟩).1 (str "2025-10-12") (str "flight_X")
        (str "20251012_030405_123.jpg")
      = .error (404, str "Metadata not found") := by decide

/-- Claim C3 amended: a single-item upload is not atomic, but its partial
states are one-sided.  For every state, file, options, time and failure
pattern: (1) if the image write itself fails, none of the three file trees
changes and failure is reported; (2) whenever the image write succeeds the
image bytes are retrievable at the allocated path — including after a later
reported failure; (3) metadata is never newly written unless the image write
succeeded (no metadata without image); (4) a metadata-write failure after a
successful image write reports failure yet leaves the orphaned image stored
with no new metadata. -/
theorem c3_atomicity_amended (st : ServerState) (file : UFile)
    (opts : UploadOpts) (now : DTime) (io : IOOracle) :
    (io.imageWriteOk = false →
      (upload_image st file opts now io).1.imageFiles = st.imageFiles ∧
      (upload_image st file opts now io).1.metaFiles = st.metaFiles ∧
      (upload_image st file opts now io).1.logFiles = st.logFiles ∧
      (upload_image st file opts now io).2.isSuccess = false) ∧
    (io.imageWriteOk = true →
      fsGet (upload_image st file opts now io).1.imageFiles
          (pjoin (get_timestamped_path opts.flight_id now st.imageDirs).1
            (generate_filename file.filename now))
        = some file.content) ∧
    ((upload_image st file opts now io).1.metaFiles ≠ st.metaFiles →
      io.imageWriteOk = true) ∧
    (io.imageWriteOk = true → io.metadataWriteOk = false →
      (opts.camera_settings.isSome && !io.cameraSettingsOk) = false →
      (upload_image st file opts now io).2.isSuccess = false ∧
      (upload_image st file opts now io).1.metaFiles = st.metaFiles) := by
  obtain ⟨iw, cs, mw, lw⟩ := io
  cases iw <;> cases cs <;> cases mw <;> cases lw <;>
    cases hcam : opts.camera_settings.isSome <;>
      simp [upload_image, save_metadata, log_upload, hcam, fsGet_write_self,
        UploadResult.isSuccess]

/-- Witness for `c3_atomicity_amended` at a concrete input: metadata-write
failure on `fileA` reports failure with no new metadata record. -/
theorem c3_atomicity_amended_witness :
    (upload_image emptyState fileA optsX demoNow
        ⟨true, true, false, true⟩).2.isSuccess = false ∧
    (upload_image emptyState fileA optsX demoNow
        ⟨true, true, false, true⟩).1.metaFiles = emptyState.metaFiles :=
  (c3_atomicity_amended emptyState fileA optsX demoNow
    ⟨true, true, false, true⟩).2.2.2 rfl rfl (by decide)

/-- Claim C4 (confirmed): for every starting state and input bytes, a
successful upload returns the stored name and path, and retrieving by the
returned reference (date folder, group label, stored filename) yields exactly
the uploaded bytes with the content type resolved from the stored filename's
extension via the fixed suffix table (.jpg/.jpeg→image/jpeg, .png→image/png,
.tif/.tiff→image/tiff, anything else→image/jpeg). -/
theorem c4_round_trip (st : ServerState) (file : UFile) (opts : UploadOpts)
    (now : DTime) :
    (upload_image st file opts now okOracle).2
      = .success
          { filename := generate_filename file.filename now
            path := pjoin (get_timestamped_path opts.flight_id now
                st.imageDirs).1 (generate_filename file.filename now)
            metadata_file := metaPathOf (pjoin (get_timestamped_path
                opts.flight_id now st.imageDirs).1
                (generate_filename file.filename now))
            flight_id :=
              match opts.flight_id with
              | some f =>
                if f = [] then flightFolderOf opts.flight_id now else f
              | none => flightFolderOf opts.flight_id now
            uploaded_at := fmtIso now } ∧
    get_image (upload_image st file opts now okOracle).1 (fmtDate now)
        (flightFolderOf opts.flight_id now)
        (generate_filename file.filename now)
      = .ok (file.content,
          contentTypeFor (lowerStr
            (splitext (generate_filename file.filename now)).2)) ∧
    contentTypeFor (str ".jpg") = str "image/jpeg" ∧
    contentTypeFor (str ".jpeg") = str "image/jpeg" ∧
    contentTypeFor (str ".png") = str "image/png" ∧
    contentTypeFor (str ".tiff") = str "image/tiff" ∧
    contentTypeFor (str ".tif") = str "image/tiff" ∧
    (∀ e : Str, e = str ".png" ∨ e = str ".tiff" ∨ e = str ".tif" ∨
      contentTypeFor e = str "image/jpeg") := by
  refine ⟨?_, ?_, by decide, by decide, by decide, by decide, by decide, ?_⟩
  · simp [upload_image, save_metadata, log_upload, okOracle,
      get_timestamped_path]
  · simp [get_image, upload_image, save_metadata, log_upload, okOracle,
      get_timestamped_path, fsGet_write_self]
  · intro e
    unfold contentTypeFor
    split_ifs with h1 h2 h3 h4 h5
    · exact Or.inr (Or.inr (Or.inr rfl))
    · exact Or.inr (Or.inr (Or.inr rfl))
    · exact Or.inl h3
    · exact Or.inr (Or.inl h4)
    · exact Or.inr (Or.inr (Or.inl h5))
    · exact Or.inr (Or.inr (Or.inr rfl))

def fileA10 : UFile := ⟨str "a.jpg", List.replicate 10 5, none⟩
def fileB20 : UFile := ⟨str "b.png", List.replicate 20 6, none⟩

/-- Store after uploading `a.jpg` (10 bytes) and `b.png` (20 bytes) to group
`"X"` at `demoNow` and one millisecond later. -/
def c5State : ServerState :=
  (upload_image (upload_image emptyState fileA10 optsX demoNow okOracle).1
    fileB20 optsX demoNow2 okOracle).1

theorem c5_size_bytes :
    (statsFold c5State.imageFiles (0, 0, [])).2.1 = 30 := by decide

theorem c5_gb_zero : (get_stats c5State demoNow2).total_size_gb = 0 := by
  show pyRound2
      (((statsFold c5State.imageFiles (0, 0, [])).2.1 : Rat) / 1024 ^ 3) = 0
  rw [c5_size_bytes, pyRound2, round_eq]
  norm_num

/-- Claim C5 counterexample: in the two-upload scenario the stats response
does not report the total size in bytes at all — its only size field is
`total_size_gb`, the byte total divided by 1024³ and rounded to two decimals,
which here is 0, not the claimed 30. -/
theorem c5_counterexample :
    (get_stats c5State demoNow2).total_size_gb = 0 ∧
    (get_stats c5State demoNow2).total_size_gb ≠ 30 := by
  refine ⟨c5_gb_zero, ?_⟩
  rw [c5_gb_zero]
  norm_num

/-- Claim C5 amended: after uploading `a.jpg` (10 bytes) and `b.png`
(20 bytes) to group `"X"` at T and T+1ms, listing with groupId `"X"` returns
exactly 2 entries, and stats reports totalImages=2, totalFlights=1,
imagesPerFlight {"X": 2} — but the size is reported as `total_size_gb = 0.0`
(gibibytes rounded to two decimals, the loop's byte total being 30), not as
a `totalSizeBytes = 30` field. -/
theorem c5_scenario_amended :
    list_images c5State (some (str "X")) none false
      = .ok (.listing 2
          [⟨str "20251012_030405_123.jpg",
            str "2025-10-12/flight_X/20251012_030405_123.jpg",
            some (str "X")⟩,
           ⟨str "20251012_030405_124.png",
            str "2025-10-12/flight_X/20251012_030405_124.png",
            some (str "X")⟩]) ∧
    (get_stats c5State demoNow2).total_images = 2 ∧
    (statsFold c5State.imageFiles (0, 0, [])).2.1 = 30 ∧
    (get_stats c5State demoNow2).total_size_gb = 0 ∧
    (get_stats c5State demoNow2).total_flights = 1 ∧
    (get_stats c5State demoNow2).images_per_flight = [(str "X", 2)] := by
  refine ⟨by decide, by decide, c5_size_bytes, c5_gb_zero, by decide, by decide⟩


theorem finishListing_ok_listing {o : Option (List ImgRec)} {d : Option Str}
    {simple : Bool} {n : Nat} {l : List ImgRec}
    (h : finishListing o d simple = .ok (.listing n l)) : l ≠ [] := by
  match o, d with
  | none, some _ => exact absurd h (by simp [finishListing])
  | none, none => exact absurd h (by simp [finishListing])
  | some l0, d =>
    rw [finishListing] at h
    by_cases h0 : l0 = []
    · rw [if_pos h0] at h
      exact absurd h (by simp)
    · rw [if_neg h0] at h
      cases simple with
      | true => simp at h
      | false =>
        rw [if_neg (by simp)] at h
        injection h with h2
        injection h2 with h3 h4
        rw [← h4]
        exact h0

theorem finishListing_ok_simple {o : Option (List ImgRec)} {d : Option Str}
    {simple : Bool} {l : List Str}
    (h : finishListing o d simple = .ok (.simpleListing l)) : l ≠ [] := by
  match o, d with
  | none, some _ => exact absurd h (by simp [finishListing])
  | none, none => exact absurd h (by simp [finishListing])
  | some l0, d =>
    rw [finishListing] at h
    by_cases h0 : l0 = []
    · rw [if_pos h0] at h
      exact absurd h (by simp)
    · rw [if_neg h0] at h
      cases simple with
      | false =>
        rw [if_neg (by simp)] at h
        simp at h
      | true =>
        rw [if_pos rfl] at h
        injection h with h2
        injection h2 with h3
        rw [← h3]
        intro hc
        exact h0 (List.map_eq_nil_iff.mp hc)

theorem list_flights_ok_nonempty {st : ServerState} {n : Nat}
    {l : List FlightRec} (h : list_flights st = .ok (n, l)) : l ≠ [] := by
  simp only [list_flights] at h
  split at h
  · exact absurd h (by simp)
  · injection h with h2
    injection h2 with h3 h4
    rw [← h4]
    assumption

/-- Claim C8 (confirmed): on the empty store every `list_images` call (any
filter, any mode) and `list_flights` signal 404 while `get_stats` returns a
normal result with all counts zero; and in general a listing operation never
returns an OK result with an empty result set (an empty set always becomes
404), whereas `get_stats` is total and never signals an error. -/
theorem c8_empty_asymmetry (now : DTime) :
    (∀ fid : Option Str, ∀ simple : Bool,
      list_images emptyState fid none simple
        = .error (404, str "No images found")) ∧
    (∀ fid : Option Str, ∀ d : Str, ∀ simple : Bool,
      list_images emptyState fid (some d) simple
        = .error (404, str "No images found for date: " ++ d)) ∧
    list_flights emptyState = .error (404, str "No flights found") ∧
    (get_stats emptyState now).total_images = 0 ∧
    (get_stats emptyState now).total_size_gb = 0 ∧
    (get_stats emptyState now).total_flights = 0 ∧
    (get_stats emptyState now).images_per_flight = [] ∧
    (∀ st : ServerState, ∀ fid date : Option Str, ∀ simple : Bool,
      ∀ n : Nat, ∀ l : List ImgRec,
      list_images st fid date simple = .ok (.listing n l) → l ≠ []) ∧
    (∀ st : ServerState, ∀ fid date : Option Str, ∀ simple : Bool,
      ∀ l : List Str,
      list_images st fid date simple = .ok (.simpleListing l) → l ≠ []) ∧
    (∀ st : ServerState, ∀ n : Nat, ∀ l : List FlightRec,
      list_flights st = .ok (n, l) → l ≠ []) := by
  refine ⟨fun fid simple => rfl, fun fid d simple => rfl, by decide, rfl,
    ?_, rfl, rfl, ?_, ?_, ?_⟩
  · show pyRound2 (((statsFold emptyState.imageFiles (0, 0, [])).2.1 : Rat)
        / 1024 ^ 3) = 0
    rw [show (statsFold emptyState.imageFiles (0, 0, [])).2.1 = 0 from rfl,
      pyRound2, round_eq]
    norm_num
  · intro st fid date simple n l h
    exact finishListing_ok_listing h
  · intro st fid date simple l h
    exact finishListing_ok_simple h
  · intro st n l h
    exact list_flights_ok_nonempty h

/-- Witness for `c8_empty_asymmetry`: its implications instantiated on the
concrete two-upload store, whose listing is OK and indeed nonempty. -/
theorem c8_empty_asymmetry_witness :
    list_images emptyState none none false
      = .error (404, str "No images found") ∧
    ([⟨str "20251012_030405_123.jpg",
       str "2025-10-12/flight_X/20251012_030405_123.jpg", some (str "X")⟩,
      ⟨str "20251012_030405_124.png",
       str "2025-10-12/flight_X/20251012_030405_124.png", some (str "X")⟩]
        : List ImgRec) ≠ [] := by
  refine ⟨(c8_empty_asymmetry demoNow).1 none false, ?_⟩
  exact (c8_empty_asymmetry demoNow).2.2.2.2.2.2.2.1 c5State (some (str "X"))
    none false 2 _ (by decide)

/-- Modelled from the spec's words for comparison (refinement target):
"groupId inferred by stripping the \"flight_\" prefix from its immediate
parent directory name" — i.e. remove one leading `flight_` when present. -/
def stripLeadingFlight (folder : Str) : Str :=
  if (str "flight_").isPrefixOf folder then folder.drop 7 else folder

example : stripLeadingFlight (str "flight_abc") = str "abc" := by decide
example : stripLeadingFlight (str "flight_flight_a") = str "flight_a" := by decide

/-- A store holding one file `images/2025-10-12/flight_flight_a/x.jpg`, i.e.
the group directory is `flight_<id>` with `id = "flight_a"`. -/
def c9State : ServerState :=
  { imageFiles := [(str "images/2025-10-12/flight_flight_a/x.jpg", [1])]
    imageDirs := [str "images", str "images/2025-10-12",
                  str "images/2025-10-12/flight_flight_a"]
    metaFiles := []
    metaDirs := []
    logFiles := [] }

/-- Claim C9 counterexample: for the group directory `flight_flight_a`
(id `"flight_a"`), the listing reports groupId `"a"` — `str.replace` removed
every occurrence of `"flight_"`, not just the leading prefix, which would
have produced `"flight_a"`. -/
theorem c9_counterexample :
    list_images c9State none none false
      = .ok (.listing 1
          [⟨str "x.jpg", str "2025-10-12/flight_flight_a/x.jpg",
            some (str "a")⟩]) ∧
    stripLeadingFlight (str "flight_flight_a") = str "flight_a" ∧
    some (str "a") ≠ some (stripLeadingFlight (str "flight_flight_a")) := by
  decide

theorem isPrefixOf_false_of_lt {p s : Str} (h : s.length < p.length) :
    p.isPrefixOf s = false := by
  cases hp : (p.isPrefixOf s : Bool) with
  | true =>
    have := (List.isPrefixOf_iff_prefix.mp hp).length_le
    omega
  | false => rfl

theorem immChild_append (base rest : Str) :
    immChild base (base ++ '/' :: rest)
      = if occurs ['/'] rest = false ∧ rest ≠ [] then some rest else none := by
  rw [immChild]
  have hsplit : base ++ '/' :: rest = (base ++ ['/']) ++ rest := by
    rw [List.append_assoc]
    rfl
  have hpfx : (base ++ ['/']).isPrefixOf (base ++ '/' :: rest) = true := by
    rw [hsplit]
    exact List.isPrefixOf_iff_prefix.mpr (List.prefix_append _ _)
  rw [if_pos hpfx]
  have hdrop : (base ++ '/' :: rest).drop (base.length + 1) = rest := by
    rw [hsplit, show base.length + 1 = (base ++ ['/']).length by simp]
    exact List.drop_left _ _
  rw [hdrop]

theorem immChild_self (base : Str) : immChild base base = none := by
  rw [immChild, if_neg]
  rw [isPrefixOf_false_of_lt (by simp)]
  simp

/-- A store holding exactly one file `images/<d>/flight_<id>/<name>`. -/
def c9StateOf (d id name : Str) (bs : List Nat) : ServerState :=
  { imageFiles :=
      [(str "images/" ++ (d ++ '/' :: ((str "flight_" ++ id) ++ '/' :: name)),
        bs)]
    imageDirs := [str "images", str "images/" ++ d,
                  str "images/" ++ (d ++ '/' :: (str "flight_" ++ id))]
    metaFiles := []
    metaDirs := []
    logFiles := [] }

/-- Claim C9 amended: the listing's groupId is obtained by removing every
occurrence of the substring `"flight_"` from the immediate parent directory
name (Python `str.replace`), not by stripping one leading prefix; for a group
directory `flight_<id>` this yields exactly `<id>` precisely when `<id>`
itself does not contain `"flight_"`.  Under that proviso, both the walk
branch (no date) and the date branch of `list_images` report groupId `<id>`
for a store holding one file `images/<d>/flight_<id>/<name>`. -/
theorem c9_groupid_amended (d id name : Str) (bs : List Nat)
    (hid : '/' ∉ id) (hname : '/' ∉ name) (hne : name ≠ [])
    (hbd : '\\' ∉ d) (hbid : '\\' ∉ id) (hbname : '\\' ∉ name)
    (hocc : occurs (str "flight_") id = false) :
    pyReplace (str "flight_" ++ id) (str "flight_") [] = id ∧
    list_images (c9StateOf d id name bs) none none false
      = .ok (.listing 1
          [⟨name, d ++ '/' :: ((str "flight_" ++ id) ++ '/' :: name),
            some id⟩]) ∧
    list_images (c9StateOf d id name bs) none (some d) false
      = .ok (.listing 1
          [⟨name, d ++ '/' :: ((str "flight_" ++ id) ++ '/' :: name),
            some id⟩]) := by
  have hflne : (str "flight_" : Str) ≠ [] := by decide
  have hrep : pyReplace (str "flight_" ++ id) (str "flight_") [] = id := by
    rw [pyReplace_pfx' hflne, pyReplace_of_not_occurs' hflne hocc,
      List.nil_append]
  have hslname : occurs ['/'] name = false := occurs_singleton_false.mpr hname
  have hslF : occurs ['/'] (str "flight_" ++ id) = false := by
    apply occurs_singleton_false.mpr
    intro hm
    rcases List.mem_append.mp hm with h1 | h2
    · exact absurd h1 (by decide)
    · exact hid h2
  have hbaseK :
      basename (str "images/" ++
          (d ++ '/' :: ((str "flight_" ++ id) ++ '/' :: name))) = name := by
    have hk : str "images/" ++
          (d ++ '/' :: ((str "flight_" ++ id) ++ '/' :: name))
        = (str "images/" ++ (d ++ '/' :: (str "flight_" ++ id))) ++
            '/' :: name := by
      simp [List.append_assoc]
    rw [hk]
    show (splitLastSlash _).2 = name
    rw [splitLastSlash_append hslname]
  have hrel2 : d ++ '/' :: ((str "flight_" ++ id) ++ '/' :: name)
      = (d ++ '/' :: (str "flight_" ++ id)) ++ '/' :: name := by
    simp [List.append_assoc]
  have hff : basename (dirname
      (d ++ '/' :: ((str "flight_" ++ id) ++ '/' :: name)))
      = str "flight_" ++ id := by
    rw [hrel2]
    show (splitLastSlash ((splitLastSlash _).1.dropLast)).2 = _
    rw [splitLastSlash_append hslname]
    show (splitLastSlash ((d ++ '/' :: (str "flight_" ++ id)) ++
        ['/']).dropLast).2 = _
    rw [List.dropLast_concat]
    show (splitLastSlash (d ++ '/' :: (str "flight_" ++ id))).2 = _
    rw [splitLastSlash_append hslF]
  have hoccF : occurs (str "flight_") (str "flight_" ++ id) = true :=
    occurs_of_isPrefixOf
      (List.isPrefixOf_iff_prefix.mpr (List.prefix_append _ _))
  have hnb : occurs ['\\'] (d ++ '/' ::
      ((str "flight_" ++ id) ++ '/' :: name)) = false := by
    apply occurs_singleton_false.mpr
    intro hm
    rcases List.mem_append.mp hm with h1 | h2
    · exact hbd h1
    · rcases List.mem_cons.mp h2 with h3 | h4
      · exact absurd h3 (by decide)
      · rcases List.mem_append.mp h4 with h5 | h6
        · rcases List.mem_append.mp h5 with h7 | h8
          · exact absurd h7 (by decide)
          · exact hbid h8
        · rcases List.mem_cons.mp h6 with h9 | h10
          · exact absurd h9 (by decide)
          · exact hbname h10
  have hbsrep : pyReplace (d ++ '/' ::
        ((str "flight_" ++ id) ++ '/' :: name)) ['\\'] ['/']
      = d ++ '/' :: ((str "flight_" ++ id) ++ '/' :: name) :=
    pyReplace_of_not_occurs hnb
  refine ⟨hrep, ?_, ?_⟩
  · simp only [list_images, c9StateOf, List.map_cons, List.map_nil]
    have hpfx7 : List.isPrefixOf (str "images/")
        (str "images/" ++ (d ++ '/' :: ((str "flight_" ++ id) ++ '/' :: name)))
        = true :=
      List.isPrefixOf_iff_prefix.mpr (List.prefix_append _ _)
    have hdrop7 : List.drop 7
        (str "images/" ++ (d ++ '/' :: ((str "flight_" ++ id) ++ '/' :: name)))
        = d ++ '/' :: ((str "flight_" ++ id) ++ '/' :: name) := by
      rw [show (7 : Nat) = (str "images/").length from rfl]
      exact List.drop_left _ _
    have hifrel : (if List.isPrefixOf (str "images/")
          (str "images/" ++
            (d ++ '/' :: ((str "flight_" ++ id) ++ '/' :: name))) = true
        then List.drop 7 (str "images/" ++
          (d ++ '/' :: ((str "flight_" ++ id) ++ '/' :: name)))
        else str "images/" ++
          (d ++ '/' :: ((str "flight_" ++ id) ++ '/' :: name)))
        = d ++ '/' :: ((str "flight_" ++ id) ++ '/' :: name) := by
      rw [if_pos hpfx7, hdrop7]
    rw [hifrel, hbaseK, hff, hoccF, hbsrep, if_pos rfl, hrep]
    rfl
  · have hFne : (str "flight_" ++ id : Str) ≠ [] := by
      intro h
      exact List.cons_ne_nil _ _ h
    have h1 : immChild (pjoin (str "images") d) (str "images") = none := rfl
    have h2 : immChild (pjoin (str "images") d) (str "images/" ++ d)
        = none := immChild_self _
    have h3 : immChild (pjoin (str "images") d)
        (str "images/" ++ (d ++ '/' :: (str "flight_" ++ id)))
        = some (str "flight_" ++ id) := by
      have hform : (str "images/" ++ (d ++ '/' :: (str "flight_" ++ id)) : Str)
          = pjoin (str "images") d ++ '/' :: (str "flight_" ++ id) := rfl
      rw [hform, immChild_append, if_pos ⟨hslF, hFne⟩]
    have hcd : childDirs [str "images", str "images/" ++ d,
          str "images/" ++ (d ++ '/' :: (str "flight_" ++ id))]
          (pjoin (str "images") d) = [str "flight_" ++ id] := by
      simp only [childDirs, List.filterMap_cons, List.filterMap_nil,
        h1, h2, h3]
    have h4 : immChild (pjoin (pjoin (str "images") d) (str "flight_" ++ id))
        (str "images/" ++ (d ++ '/' :: ((str "flight_" ++ id) ++ '/' :: name)))
        = some name := by
      have hform2 : (str "images/" ++
            (d ++ '/' :: ((str "flight_" ++ id) ++ '/' :: name)) : Str)
          = pjoin (pjoin (str "images") d) (str "flight_" ++ id)
              ++ '/' :: name := by
        simp only [pjoin, List.append_assoc, List.cons_append]
        rfl
      rw [hform2, immChild_append, if_pos ⟨hslname, hne⟩]
    have hcf : childFiles
        [(str "images/" ++
            (d ++ '/' :: ((str "flight_" ++ id) ++ '/' :: name)), bs)]
        (pjoin (pjoin (str "images") d) (str "flight_" ++ id)) = [name] := by
      simp only [childFiles, List.filterMap_cons, List.filterMap_nil, h4]
    have hmem : pjoin (str "images") d ∈ [str "images", str "images/" ++ d,
        str "images/" ++ (d ++ '/' :: (str "flight_" ++ id))] :=
      List.mem_cons_of_mem _ (List.mem_cons_self _ _)
    simp only [list_images, c9StateOf]
    rw [if_pos (Or.inl hmem), hcd]
    simp only [List.flatMap_cons, List.flatMap_nil]
    rw [show flightMismatch none (str "flight_" ++ id) = false from rfl]
    rw [if_neg (by simp), hcf]
    simp only [List.map_cons, List.map_nil]
    rw [hrep]
    rfl

/-- Witness for `c9_groupid_amended` at a concrete store
`images/2025-10-12/flight_a/x.jpg`. -/
theorem c9_groupid_amended_witness :
    list_images (c9StateOf (str "2025-10-12") (str "a") (str "x.jpg") [1])
        none none false
      = .ok (.listing 1
          [⟨str "x.jpg",
            str "2025-10-12" ++ '/' ::
              ((str "flight_" ++ str "a") ++ '/' :: str "x.jpg"),
            some (str "a")⟩]) :=
  (c9_groupid_amended (str "2025-10-12") (str "a") (str "x.jpg") [1]
    (by decide) (by decide) (by decide) (by decide) (by decide) (by decide)
    (by decide)).2.1

/-- Sum of the per-flight counters. -/
def sumValues (m : List (Str × Nat)) : Nat := (m.map (fun p => p.2)).sum

theorem fsGet_none_iff {α : Type} {m : List (Str × α)} {k : Str} :
    fsGet m k = none ↔ k ∉ m.map (fun p => p.1) := by
  induction m with
  | nil =>
    constructor
    · intro _
      exact List.not_mem_nil k
    · intro _
      rfl
  | cons p t ih =>
    obtain ⟨k', v⟩ := p
    rw [fsGet]
    by_cases h : k' = k
    · rw [if_pos h]
      subst h
      constructor
      · intro hc
        exact Option.noConfusion hc
      · intro hn
        exact absurd (List.mem_cons_self _ _) hn
    · simp only [if_neg h, List.map_cons, List.mem_cons, ih]
      constructor
      · intro hn hor
        rcases hor with h1 | h2
        · exact h h1.symm
        · exact hn h2
      · intro hn
        exact fun hm => hn (Or.inr hm)

theorem sumValues_bump {m : List (Str × Nat)} (k : Str)
    (hnd : (m.map (fun p => p.1)).Nodup) :
    sumValues (bump m k) = sumValues m + 1 := by
  rw [bump]
  cases hg : (fsGet m k).isSome with
  | false =>
    rw [if_neg (by simp [hg])]
    simp [sumValues]
  | true =>
    rw [if_pos (by simp [hg])]
    induction m with
    | nil => simp [fsGet] at hg
    | cons p t ih =>
      obtain ⟨k', v⟩ := p
      rw [fsGet] at hg
      simp only [List.map_cons, List.nodup_cons] at hnd
      by_cases h : k' = k
      · rw [if_pos h] at hg
        have ht : t.map (fun p => if p.1 = k then (p.1, p.2 + 1) else p)
            = t := by
          conv_rhs => rw [← List.map_id t]
          apply List.map_congr_left
          intro p hp
          have hpk : p.1 ≠ k := by
            intro he
            exact hnd.1 (h ▸ he ▸ List.mem_map_of_mem _ hp)
          rw [if_neg hpk]
          rfl
        simp only [List.map_cons, if_pos h, sumValues, List.map_cons,
          List.sum_cons, ht]
        omega
      · rw [if_neg h] at hg
        have := ih hnd.2 hg
        simp only [List.map_cons, if_neg h, sumValues, List.sum_cons] at this ⊢
        omega

theorem bump_keys (m : List (Str × Nat)) (k : Str) :
    (bump m k).map (fun p => p.1)
      = if (fsGet m k).isSome then m.map (fun p => p.1)
        else m.map (fun p => p.1) ++ [k] := by
  rw [bump]
  cases hg : (fsGet m k).isSome with
  | false => simp [hg]
  | true =>
    rw [if_pos rfl, if_pos rfl, List.map_map]
    apply List.map_congr_left
    intro p hp
    by_cases h : p.1 = k
    · simp [h]
    · simp [h]

theorem bump_keys_nodup {m : List (Str × Nat)} (k : Str)
    (hnd : (m.map (fun p => p.1)).Nodup) :
    ((bump m k).map (fun p => p.1)).Nodup := by
  rw [bump_keys]
  cases hg : (fsGet m k).isSome with
  | false =>
    rw [if_neg (by simp [hg])]
    have hk : k ∉ m.map (fun p => p.1) :=
      fsGet_none_iff.mp (by
        cases hfs : fsGet m k with
        | none => rfl
        | some v => rw [hfs] at hg; simp at hg)
    simp [List.nodup_append, hnd, hk]
  | true =>
    rw [if_pos rfl]
    exact hnd

/-- Accumulator characterization of the `get_stats` loop: totals count every
walked file, sizes sum every file's bytes, and the per-flight counters gain
exactly one per file whose parent directory name contains `"flight_"`. -/
theorem statsFold_spec (files : List (Str × List Nat)) :
    ∀ t sz fl, ((fl.map (fun p => p.1)).Nodup) →
      (statsFold files (t, sz, fl)).1 = t + files.length ∧
      (statsFold files (t, sz, fl)).2.1
        = sz + (files.map (fun p => p.2.length)).sum ∧
      sumValues (statsFold files (t, sz, fl)).2.2
        = sumValues fl +
            files.countP (fun p => occurs (str "flight_") (parentName p.1)) ∧
      (((statsFold files (t, sz, fl)).2.2.map (fun p => p.1)).Nodup) := by
  induction files with
  | nil =>
    intro t sz fl hnd
    simp [statsFold, hnd]
  | cons f rest ih =>
    intro t sz fl hnd
    obtain ⟨path, content⟩ := f
    rw [statsFold]
    by_cases hp : occurs (str "flight_") (parentName path) = true
    · rw [if_pos hp]
      obtain ⟨ih1, ih2, ih3, ih4⟩ :=
        ih (t + 1) (sz + content.length)
          (bump fl (pyReplace (parentName path) (str "flight_") []))
          (bump_keys_nodup _ hnd)
      refine ⟨?_, ?_, ?_, ih4⟩
      · rw [ih1]
        simp only [List.length_cons]
        omega
      · rw [ih2]
        simp only [List.map_cons, List.sum_cons]
        omega
      · rw [ih3, sumValues_bump _ hnd, List.countP_cons, hp]
        simp only [eq_self_iff_true, if_true]
        omega
    · rw [if_neg hp]
      obtain ⟨ih1, ih2, ih3, ih4⟩ := ih (t + 1) (sz + content.length) fl hnd
      refine ⟨?_, ?_, ?_, ih4⟩
      · rw [ih1]
        simp only [List.length_cons]
        omega
      · rw [ih2]
        simp only [List.map_cons, List.sum_cons]
        omega
      · have hp' : (occurs (str "flight_") (parentName path) : Bool) = false :=
          by
            cases hoc : (occurs (str "flight_") (parentName path) : Bool) with
            | true => exact absurd hoc hp
            | false => rfl
        rw [ih3, List.countP_cons, hp']
        simp

/-- Claim C10 (confirmed): for every store state, `get_stats` counts every
walked file in `total_images` and sums every file's bytes into the size
accumulator that it then reports in (rounded) gibibytes, but a file joins
`images_per_flight` only when its immediate parent directory name contains
the substring `"flight_"`; hence the sum of the per-flight counts is at most
`total_images`, with equality exactly when every file lies directly under
such a directory. -/
theorem c10_stats_invariant (files : List (Str × List Nat)) (dirs : List Str)
    (mf : List (Str × MetaRecord)) (mdirs : List Str)
    (lf : List (Str × List Str)) (now : DTime) :
    (get_stats ⟨files, dirs, mf, mdirs, lf⟩ now).total_images
      = files.length ∧
    (statsFold files (0, 0, [])).2.1
      = (files.map (fun p => p.2.length)).sum ∧
    (get_stats ⟨files, dirs, mf, mdirs, lf⟩ now).total_size_gb
      = pyRound2 ((((files.map (fun p => p.2.length)).sum : Nat) : Rat)
          / 1024 ^ 3) ∧
    sumValues (get_stats ⟨files, dirs, mf, mdirs, lf⟩ now).images_per_flight
      ≤ files.length ∧
    (sumValues (get_stats ⟨files, dirs, mf, mdirs,
        lf⟩ now).images_per_flight = files.length ↔
      ∀ p ∈ files, occurs (str "flight_") (parentName p.1) = true) := by
  obtain ⟨h1, h2, h3, _⟩ := statsFold_spec files 0 0 [] (by simp)
  have htotal : (get_stats ⟨files, dirs, mf, mdirs, lf⟩ now).total_images
      = files.length := by
    show (statsFold files (0, 0, [])).1 = files.length
    rw [h1]
    omega
  have hsz : (statsFold files (0, 0, [])).2.1
      = (files.map (fun p => p.2.length)).sum := by
    rw [h2]
    simp
  have hsum : sumValues (get_stats ⟨files, dirs, mf, mdirs,
      lf⟩ now).images_per_flight
      = files.countP (fun p => occurs (str "flight_") (parentName p.1)) := by
    show sumValues (statsFold files (0, 0, [])).2.2 = _
    rw [h3]
    simp [sumValues]
  refine ⟨htotal, hsz, ?_, ?_, ?_⟩
  · show pyRound2 (((statsFold files (0, 0, [])).2.1 : Rat) / 1024 ^ 3) = _
    rw [hsz]
  · rw [hsum]
    exact List.countP_le_length _
  · rw [hsum]
    exact List.countP_eq_length

/-- Witness for `c10_stats_invariant`: on the two-upload store both files sit
directly under `flight_X`, so the per-flight sum equals `total_images`. -/
theorem c10_stats_invariant_witness :
    sumValues (get_stats c5State demoNow2).images_per_flight
      = c5State.imageFiles.length :=
  ((c10_stats_invariant c5State.imageFiles c5State.imageDirs
      c5State.metaFiles c5State.metaDirs c5State.logFiles
      demoNow2).2.2.2.2).mpr (by decide)

/-- The outcome of one upload as a function of the failure pattern alone:
the response never depends on the starting state. -/
def uploadOutcome (file : UFile) (opts : UploadOpts) (now : DTime)
    (io : IOOracle) : UploadResult :=
  if io.imageWriteOk then
    if opts.camera_settings.isSome && !io.cameraSettingsOk then
      .failure 500 (str "Upload failed: camera_settings parse error")
    else if io.metadataWriteOk then
      if io.logWriteOk then
        .success
          { filename := generate_filename file.filename now
            path := pjoin (pjoin (pjoin (str "images") (fmtDate now))
                (flightFolderOf opts.flight_id now))
              (generate_filename file.filename now)
            metadata_file := metaPathOf
              (pjoin (pjoin (pjoin (str "images") (fmtDate now))
                  (flightFolderOf opts.flight_id now))
                (generate_filename file.filename now))
            flight_id :=
              match opts.flight_id with
              | some f =>
                if f = [] then flightFolderOf opts.flight_id now else f
              | none => flightFolderOf opts.flight_id now
            uploaded_at := fmtIso now }
      else .failure 500 (str "Upload failed: log write error")
    else .failure 500 (str "Upload failed: metadata write error")
  else .failure 500 (str "Upload failed: image write error")

theorem upload_image_result (st : ServerState) (file : UFile)
    (opts : UploadOpts) (now : DTime) (io : IOOracle) :
    (upload_image st file opts now io).2 = uploadOutcome file opts now io := by
  obtain ⟨iw, cs, mw, lw⟩ := io
  cases iw <;> cases cs <;> cases mw <;> cases lw <;>
    cases hcam : opts.camera_settings.isSome <;>
      simp [upload_image, save_metadata, log_upload, uploadOutcome, hcam,
        get_timestamped_path]

/-- The per-entry outcome of `upload_batch` for one file and its oracle. -/
def batchExpected (file : UFile) (fid : Option Str) (lat lon alt : Option Rat)
    (now : DTime) (io : IOOracle) : BatchEntry :=
  match uploadOutcome file
      ⟨fid, lat, lon, alt, none, none⟩ now io with
  | .success resp => .ok resp.filename resp.path
  | .failure _ d => .err file.filename d

def batchExpectedList (fid : Option Str) (lat lon alt : Option Rat)
    (now : DTime) (ios : Nat → IOOracle) : List UFile → Nat → List BatchEntry
  | [], _ => []
  | f :: rest, i =>
    batchExpected f fid lat lon alt now (ios i) ::
      batchExpectedList fid lat lon alt now ios rest (i + 1)

theorem batchExpectedList_length (fid : Option Str) (lat lon alt : Option Rat)
    (now : DTime) (ios : Nat → IOOracle) :
    ∀ files i, (batchExpectedList fid lat lon alt now ios files i).length
      = files.length := by
  intro files
  induction files with
  | nil => intro i; rfl
  | cons f rest ih =>
    intro i
    rw [batchExpectedList]
    simp [ih]

theorem upload_batch_go_results (fid : Option Str) (lat lon alt : Option Rat)
    (now : DTime) (ios : Nat → IOOracle) :
    ∀ files i st acc,
      (upload_batch_go fid lat lon alt now ios files i st acc).2
        = acc ++ batchExpectedList fid lat lon alt now ios files i := by
  intro files
  induction files with
  | nil =>
    intro i st acc
    simp [upload_batch_go, batchExpectedList]
  | cons f rest ih =>
    intro i st acc
    rw [upload_batch_go, batchExpectedList]
    rw [ih]
    rw [upload_image_result]
    rw [List.append_assoc]
    rfl

theorem filter_isOk_split (l : List BatchEntry) :
    (l.filter (fun e => e.isOk)).length
      + (l.filter (fun e => !e.isOk)).length = l.length := by
  induction l with
  | nil => rfl
  | cons e t ih =>
    cases he : e.isOk with
    | true =>
      simp only [List.filter_cons, he, List.length_cons, ← ih]
      simp
      omega
    | false =>
      simp only [List.filter_cons, he, List.length_cons, ← ih]
      simp
      omega

theorem batchExpectedList_getD (fid : Option Str) (lat lon alt : Option Rat)
    (now : DTime) (ios : Nat → IOOracle) :
    ∀ files : List UFile, ∀ i j : Nat, i < files.length →
      (batchExpectedList fid lat lon alt now ios files j).getD i
          (.err [] [])
        = batchExpected (files.getD i ⟨[], [], none⟩) fid lat lon alt now
            (ios (j + i)) := by
  intro files
  induction files with
  | nil =>
    intro i j h
    simp at h
  | cons f rest ih =>
    intro i j h
    rw [batchExpectedList]
    cases i with
    | zero => simp
    | succ i' =>
      rw [List.getD_cons_succ, List.getD_cons_succ]
      rw [show j + (i' + 1) = (j + 1) + i' by omega]
      exact ih i' (j + 1) (by simpa using Nat.lt_of_succ_lt_succ h)

/-- Claim C7 (confirmed): `upload_batch` processes each entry independently —
the i-th outcome is a function of the i-th file and the i-th failure pattern
only, so one entry's failure never aborts the rest; the result reports
`total` equal to the number of input entries, `successful` and `failed`
counts summing to `total`, and one per-entry outcome in input order: success
carries the stored name, failure carries the original client filename and an
error description. -/
theorem c7_batch_isolation (st : ServerState) (files : List UFile)
    (fid : Option Str) (lat lon alt : Option Rat) (now : DTime)
    (ios : Nat → IOOracle) :
    (upload_batch st files fid lat lon alt now ios).2.total
      = files.length ∧
    (upload_batch st files fid lat lon alt now ios).2.results.length
      = files.length ∧
    (upload_batch st files fid lat lon alt now ios).2.successful +
        (upload_batch st files fid lat lon alt now ios).2.failed
      = files.length ∧
    (∀ i : Nat, i < files.length →
      (upload_batch st files fid lat lon alt now ios).2.results.getD i
          (.err [] [])
        = batchExpected (files.getD i ⟨[], [], none⟩) fid lat lon alt now
            (ios i)) ∧
    (∀ f : UFile, ∀ io' : IOOracle,
      ((batchExpected f fid lat lon alt now io').isOk
        = (io'.imageWriteOk && io'.metadataWriteOk && io'.logWriteOk)) ∧
      ((batchExpected f fid lat lon alt now io').isOk = false →
        (batchExpected f fid lat lon alt now io').name = f.filename) ∧
      ((batchExpected f fid lat lon alt now io').isOk = true →
        (batchExpected f fid lat lon alt now io').name
          = generate_filename f.filename now)) := by
  have hres : (upload_batch st files fid lat lon alt now ios).2.results
      = batchExpectedList fid lat lon alt now ios files 0 := by
    show (upload_batch_go fid lat lon alt now ios files 0 st []).2 = _
    rw [upload_batch_go_results]
    rfl
  refine ⟨rfl, ?_, ?_, ?_, ?_⟩
  · rw [hres, batchExpectedList_length]
  · show ((upload_batch_go fid lat lon alt now ios files 0 st
        []).2.filter (fun e => e.isOk)).length +
      ((upload_batch_go fid lat lon alt now ios files 0 st
        []).2.filter (fun e => !e.isOk)).length = files.length
    rw [filter_isOk_split]
    show (upload_batch st files fid lat lon alt now ios).2.results.length
      = files.length
    rw [hres, batchExpectedList_length]
  · intro i h
    rw [hres, batchExpectedList_getD fid lat lon alt now ios files i 0 h]
    simp
  · intro f io'
    obtain ⟨iw, cs, mw, lw⟩ := io'
    cases iw <;> cases cs <;> cases mw <;> cases lw <;>
      simp [batchExpected, uploadOutcome, BatchEntry.isOk, BatchEntry.name]

def iosFail1 : Nat → IOOracle :=
  fun i => if i = 1 then ⟨false, true, true, true⟩ else okOracle

/-- Witness for `c7_batch_isolation`: a two-file batch whose second entry's
image write fails still reports total 2 with the second outcome in place. -/
theorem c7_batch_isolation_witness :
    (upload_batch emptyState [fileA, fileB] (some (str "X")) none none none
        demoNow iosFail1).2.total = 2 ∧
    (upload_batch emptyState [fileA, fileB] (some (str "X")) none none none
        demoNow iosFail1).2.results.getD 1 (.err [] [])
      = batchExpected fileB (some (str "X")) none none none demoNow
          (iosFail1 1) :=
  ⟨(c7_batch_isolation emptyState [fileA, fileB] (some (str "X")) none none
      none demoNow iosFail1).1,
   (c7_batch_isolation emptyState [fileA, fileB] (some (str "X")) none none
      none demoNow iosFail1).2.2.2.1 1 (by decide)⟩

def fileDotImages : UFile := ⟨str "x.images", [9], none⟩

/-- Claim C2 counterexample: uploading `x.images` (extension `.images`)
succeeds, but the metadata record is NOT at the mirrored path
`metadata/2025-10-12/flight_X/20251012_030405_123.json`: the first
`str.replace` turned the `.images` extension into `.metadata`, so the record
sits at `...123.metadata` instead. -/
theorem c2_counterexample :
    (upload_image emptyState fileDotImages optsX demoNow okOracle).2.isSuccess
      = true ∧
    fsGet (upload_image emptyState fileDotImages optsX demoNow
        okOracle).1.metaFiles
        (str "metadata/2025-10-12/flight_X/20251012_030405_123.json")
      = none ∧
    (fsGet (upload_image emptyState fileDotImages optsX demoNow
        okOracle).1.metaFiles
        (str "metadata/2025-10-12/flight_X/20251012_030405_123.metadata")).isSome
      = true := by decide

/-- The metadata path actually mirrors the image path (root swapped,
extension replaced by `.json`) whenever the date and stamp chunks are of the
shape `strftime` produces, the extension is nonempty, and neither `"images"`
nor the extension occurs in the flight folder or extension chunks. -/
theorem metaPathOf_mirror (D F TS t : Str)
    (hDdot : '.' ∉ D) (hDi : 'i' ∉ D)
    (hTSdot : '.' ∉ TS) (hTSi : 'i' ∉ TS) (hTSslash : '/' ∉ TS)
    (hTSne : TS ≠ []) (hTShead : TS.headI ≠ '.')
    (htdot : '.' ∉ t) (htslash : '/' ∉ t)
    (hFim : occurs (str "images") F = false)
    (hFex : occurs ('.' :: t) F = false)
    (hext_im : occurs (str "images") ('.' :: t) = false) :
    metaPathOf (str "images" ++ '/' ::
        (D ++ '/' :: (F ++ '/' :: (TS ++ '.' :: t))))
      = str "metadata" ++ '/' ::
          (D ++ '/' :: (F ++ '/' :: (TS ++ str ".json"))) := by
  have hslashext : '/' ∉ ('.' :: t) := by
    intro hm
    rcases List.mem_cons.mp hm with h1 | h2
    · exact absurd h1 (by decide)
    · exact htslash h2
  have hse : splitext (str "images" ++ '/' ::
      (D ++ '/' :: (F ++ '/' :: (TS ++ '.' :: t)))) =
      ((str "images" ++ ('/' :: D ++ '/' :: F)) ++ '/' :: TS, '.' :: t) := by
    have hip : str "images" ++ '/' ::
        (D ++ '/' :: (F ++ '/' :: (TS ++ '.' :: t)))
        = (str "images" ++ ('/' :: D ++ '/' :: F)) ++
            '/' :: (TS ++ '.' :: t) := by
      simp only [List.append_assoc, List.cons_append]
    rw [hip]
    have hts : TS = TS.headI :: TS.tail := by
      cases hc : TS with
      | nil => exact absurd hc hTSne
      | cons c ts' => rfl
    have hsl : occurs ['/'] (TS ++ '.' :: t) = false := by
      apply occurs_singleton_false.mpr
      intro hm
      rcases List.mem_append.mp hm with h1 | h2
      · exact hTSslash h1
      · exact hslashext h2
    exact splitext_shape hts hTShead hTSdot htdot hsl
  show pyReplace (pyReplace _ (str "images") (str "metadata"))
      (splitext _).2 (str ".json") = _
  rw [hse]
  have hocc1 : occurs (str "images")
      ('/' :: (D ++ '/' :: (F ++ '/' :: (TS ++ '.' :: t)))) = false := by
    have h0 : occurs (str "images")
        (D ++ '/' :: (F ++ '/' :: (TS ++ '.' :: t))) = false := by
      rw [occurs_append_sep _ _ _ (by decide)]
      rw [occurs_false_of_not_mem (show 'i' ∈ str "images" by decide) hDi]
      rw [occurs_append_sep _ _ _ (by decide), hFim]
      rw [occurs_append_headI _ (by decide) hTSi, hext_im]
      rfl
    rw [occurs_cons]
    rw [h0]
    rw [show (str "images").isPrefixOf ('/' ::
      (D ++ '/' :: (F ++ '/' :: (TS ++ '.' :: t)))) = false from rfl]
    rfl
  rw [pyReplace_pfx' (show (str "images" : Str) ≠ [] by decide),
    pyReplace_of_not_occurs' (show (str "images" : Str) ≠ [] by decide) hocc1]
  have hA : str "metadata" ++ '/' ::
      (D ++ '/' :: (F ++ '/' :: (TS ++ '.' :: t)))
      = (str "metadata" ++ ('/' :: D ++ '/' :: (F ++ '/' :: TS))) ++
          '.' :: t := by
    simp only [List.append_assoc, List.cons_append]
  have hTail : occurs ('.' :: t)
      ((str "metadata" ++ ('/' :: D ++ '/' :: (F ++ '/' :: TS))) ++
        ('.' :: t).dropLast) = false := by
    have hS : (str "metadata" ++ ('/' :: D ++ '/' :: (F ++ '/' :: TS))) ++
        ('.' :: t).dropLast
        = str "metadata" ++ '/' ::
            (D ++ '/' :: (F ++ '/' :: (TS ++ ('.' :: t).dropLast))) := by
      simp only [List.append_assoc, List.cons_append]
    rw [hS]
    rw [occurs_append_sep _ _ _ hslashext]
    rw [occurs_false_of_not_mem (List.mem_cons_self '.' t)
      (show ('.' : Char) ∉ str "metadata" by decide)]
    rw [occurs_append_sep _ _ _ hslashext]
    rw [occurs_false_of_not_mem (List.mem_cons_self '.' t) hDdot]
    rw [occurs_append_sep _ _ _ hslashext, hFex]
    rw [occurs_append_headI _ (by simp) hTSdot]
    rw [occurs_false_of_lt_length
      (by rw [List.length_dropLast]; simp)]
    rfl
  rw [hA, pyReplace_tail' _ _ (by simp) hTail]
  simp only [List.append_assoc, List.cons_append]

/-- Claim C2 amended: after every successful upload whose original filename
has a nonempty extension, where neither `"images"` nor that extension occurs
in the flight folder name and the extension does not contain `"images"`, the
metadata record exists at exactly the mirrored path (image root replaced by
the metadata root, image extension replaced by `.json`, same relative path
otherwise), and `get_metadata` on the mirrored coordinates returns it. -/
theorem c2_mirror_amended (st : ServerState) (file : UFile)
    (opts : UploadOpts) (now : DTime)
    (hext : (splitext file.filename).2 ≠ [])
    (him : occurs (str "images") (splitext file.filename).2 = false)
    (hFim : occurs (str "images") (flightFolderOf opts.flight_id now)
      = false)
    (hFex : occurs (splitext file.filename).2
      (flightFolderOf opts.flight_id now) = false) :
    metaPathOf (pjoin (get_timestamped_path opts.flight_id now
        st.imageDirs).1 (generate_filename file.filename now))
      = str "metadata" ++ '/' :: (fmtDate now ++ '/' ::
          (flightFolderOf opts.flight_id now ++ '/' ::
            (fnameStamp now ++ str ".json"))) ∧
    (upload_image st file opts now okOracle).2.isSuccess = true ∧
    (∃ md : MetaRecord,
      fsGet (upload_image st file opts now okOracle).1.metaFiles
          (str "metadata" ++ '/' :: (fmtDate now ++ '/' ::
            (flightFolderOf opts.flight_id now ++ '/' ::
              (fnameStamp now ++ str ".json")))) = some md ∧
      get_metadata (upload_image st file opts now okOracle).1 (fmtDate now)
          (flightFolderOf opts.flight_id now)
          (generate_filename file.filename now) = .ok md) := by
  obtain ⟨t, hexteq, htdot, htslash⟩ := splitext_ext_struct hext
  have hip_norm : pjoin (get_timestamped_path opts.flight_id now
      st.imageDirs).1 (generate_filename file.filename now)
      = str "images" ++ '/' :: (fmtDate now ++ '/' ::
          (flightFolderOf opts.flight_id now ++ '/' ::
            (fnameStamp now ++ '.' :: t))) := by
    simp only [pjoin, get_timestamped_path, generate_filename, hexteq,
      List.append_assoc, List.cons_append]
  have hTShead : (fnameStamp now).headI ≠ '.' := by
    intro he
    have hmem := fnameStamp_headI_mem now
    rw [he] at hmem
    exact absurd hmem (by decide)
  have hmirror : metaPathOf (pjoin (get_timestamped_path opts.flight_id now
      st.imageDirs).1 (generate_filename file.filename now))
      = str "metadata" ++ '/' :: (fmtDate now ++ '/' ::
          (flightFolderOf opts.flight_id now ++ '/' ::
            (fnameStamp now ++ str ".json"))) := by
    rw [hip_norm]
    exact metaPathOf_mirror (fmtDate now) (flightFolderOf opts.flight_id now)
      (fnameStamp now) t
      (fmtDate_not_mem (by decide) (by decide))
      (fmtDate_not_mem (by decide) (by decide))
      (fnameStamp_not_mem (by decide) (by decide))
      (fnameStamp_not_mem (by decide) (by decide))
      (fnameStamp_not_mem (by decide) (by decide))
      (fnameStamp_ne_nil now) hTShead htdot htslash hFim
      (hexteq ▸ hFex) (hexteq ▸ him)
  refine ⟨hmirror, ?_, ?_⟩
  · simp [upload_image, save_metadata, log_upload, okOracle,
      UploadResult.isSuccess]
  · have hmf : (upload_image st file opts now okOracle).1.metaFiles
        = fsWrite st.metaFiles
            (metaPathOf (pjoin (get_timestamped_path opts.flight_id now
              st.imageDirs).1 (generate_filename file.filename now)))
            { original_filename := file.filename
              stored_filename := generate_filename file.filename now
              upload_timestamp := fmtIso now
              flight_id := opts.flight_id
              gps_latitude := opts.gps_latitude
              gps_longitude := opts.gps_longitude
              altitude := opts.altitude
              camera_settings := opts.camera_settings
              notes := opts.notes
              file_size := file.content.length
              content_type := file.content_type
              server_timestamp := fmtIso now
              image_path := pjoin (get_timestamped_path opts.flight_id now
                st.imageDirs).1 (generate_filename file.filename now)
              metadata_file := metaPathOf (pjoin (get_timestamped_path
                opts.flight_id now st.imageDirs).1
                (generate_filename file.filename now)) } := by
      simp [upload_image, save_metadata, log_upload, okOracle,
        get_timestamped_path]
    refine ⟨{ original_filename := file.filename
              stored_filename := generate_filename file.filename now
              upload_timestamp := fmtIso now
              flight_id := opts.flight_id
              gps_latitude := opts.gps_latitude
              gps_longitude := opts.gps_longitude
              altitude := opts.altitude
              camera_settings := opts.camera_settings
              notes := opts.notes
              file_size := file.content.length
              content_type := file.content_type
              server_timestamp := fmtIso now
              image_path := pjoin (get_timestamped_path opts.flight_id now
                st.imageDirs).1 (generate_filename file.filename now)
              metadata_file := metaPathOf (pjoin (get_timestamped_path
                opts.flight_id now st.imageDirs).1
                (generate_filename file.filename now)) }, ?_, ?_⟩
    · rw [hmf, ← hmirror]
      exact fsGet_write_self _ _ _
    · show (match fsGet (upload_image st file opts now
          okOracle).1.metaFiles (metaPathOf _) with
          | some md => Except.ok md
          | none => Except.error (404, str "Metadata not found")) = _
      rw [hmf]
      rw [show metaPathOf (pjoin (pjoin (pjoin (str "images") (fmtDate now))
          (flightFolderOf opts.flight_id now))
          (generate_filename file.filename now))
        = metaPathOf (pjoin (get_timestamped_path opts.flight_id now
            st.imageDirs).1 (generate_filename file.filename now)) from rfl]
      rw [fsGet_write_self]

/-- Witness for `c2_mirror_amended`: a concrete `a.jpg` upload to group `"X"`
satisfies every hypothesis, and the mirror equation holds there. -/
theorem c2_mirror_amended_witness :
    metaPathOf (pjoin (get_timestamped_path optsX.flight_id demoNow
        emptyState.imageDirs).1 (generate_filename fileA.filename demoNow))
      = str "metadata" ++ '/' :: (fmtDate demoNow ++ '/' ::
          (flightFolderOf optsX.flight_id demoNow ++ '/' ::
            (fnameStamp demoNow ++ str ".json"))) ∧
    (upload_image emptyState fileA optsX demoNow okOracle).2.isSuccess
      = true :=
  ⟨(c2_mirror_amended emptyState fileA optsX demoNow (by decide) (by decide)
      (by decide) (by decide)).1,
   (c2_mirror_amended emptyState fileA optsX demoNow (by decide) (by decide)
      (by decide) (by decide)).2.1⟩
